import Mathlib

/-!
# Verification of the `dnssync.py` zone-reconciliation engine

Shallow embedding of `src/dnssync.py` (garloff/designate-sync).

The embedding translates the source functions:
* `set_equal`       (dnssync.py, lines 110-118)
* `find_record`     (dnssync.py, lines 95-107); the Python `assert` that fires
  when a (name, type) lookup is not unique is modelled as `Except.error ()`,
  and an aborted run (uncaught exception) is modelled as `Option.none` in the
  callers.
* `sync_zone`       (dnssync.py, lines 121-218); the forward pass and backward
  pass are folds over the source/target record-set lists.  Provider calls
  (`create_recordset`, `update_recordset`, `delete_recordset`) are recorded in
  an explicit `calls` list; success/failure of each call is decided by a
  provider oracle, matching the `try/except SDKException` structure.
* the zone loop of `main` (dnssync.py, lines 246-249) and the module-level
  call site `main(sys.argv)` (lines 261-262), which discards `main`'s return
  value, so a normally-terminating process exits with status 0 (an uncaught
  exception makes the Python interpreter exit with status 1).

Mutable target-cloud state is threaded explicitly: record mutations that the
provider accepts are applied to the live target record-set list (lookups in
the forward pass run against the live provider state, as in the source), and
the resulting cloud state is returned so that a second run can be expressed.
The record sets iterated by the backward pass are those fetched at line 166,
i.e. the target zone's sets before the forward pass ran.
-/

namespace DnsSync

/-- A DNS record set: `name`/`type` pair, TTL, the record values
(`records` in the source), and a description. -/
structure RecordSet where
  name : String
  type : String
  ttl : Nat
  records : List String
  description : String
  deriving Repr, DecidableEq

/-- A DNS zone as the provider exposes it: its (fully qualified) name, the
administrative email, a description and its record sets. -/
structure Zone where
  name : String
  email : String
  description : String
  sets : List RecordSet
  deriving Repr, DecidableEq

/-- A cloud's DNS service: the zones it hosts. -/
structure Cloud where
  zones : List Zone
  deriving Repr, DecidableEq

/-- A record-level provider mutation issued to the target cloud, mirroring
the three SDK calls in `sync_zone`. -/
inductive Mutation where
  | create_recordset (name ty : String) (ttl : Nat) (records : List String) (descr : String)
  | update_recordset (old : RecordSet) (name ty : String) (ttl : Nat) (records : List String) (descr : String)
  | delete_recordset (old : RecordSet)
  deriving Repr, DecidableEq

/-- Provider behaviour oracle: which record-level calls succeed, and what
zone (if any) a `create_zone` call produces.  A `none` from `createZone`
models a raised `SDKException`. -/
structure Provider where
  mutOk : Mutation → Bool
  createZone : String → String → String → String → Option Zone

/-- `dns.find_zone(zone)`: look a zone up by name. -/
def find_zone (c : Cloud) (name : String) : Option Zone :=
  c.zones.find? (fun z => z.name == name)

/-- The filtered form `dns.recordsets(zone, name=..., type=...)`. -/
def recordsets (sets : List RecordSet) (name ty : String) : List RecordSet :=
  sets.filter (fun r => r.name == name && r.type == ty)

/-- `find_record(dns, zone, rec)` (lines 95-107): zero matches is `none`,
one match is returned, more than one match prints an error and then fails
the `assert len(rset) == 1`, modelled as `Except.error ()`. -/
def find_record (sets : List RecordSet) (rec : RecordSet) : Except Unit (Option RecordSet) :=
  match recordsets sets rec.name rec.type with
  | [] => Except.ok none
  | [r] => Except.ok (some r)
  | _ :: _ :: _ => Except.error ()

/-- `set_equal(set1, set2)` (lines 110-118): mutual membership of the two
value lists, ignoring order and duplicate counts. -/
def set_equal (set1 set2 : List String) : Bool :=
  set1.all (fun e => set2.contains e) && set2.all (fun e => set1.contains e)

/-- The state threaded through the two passes of `sync_zone`: the live
target record sets, the provider calls issued so far, the zone's error
count `errs` and the per-record statistics counters. -/
structure SyncState where
  target : List RecordSet
  calls : List Mutation
  errs : Nat
  skipped : Nat
  created : Nat
  changed : Nat
  nochg : Nat
  deleted : Nat
  deriving Repr, DecidableEq

/-- Effect of a provider-accepted mutation on the target zone's record
sets: create appends the new set, update rewrites the matched set in place,
delete removes it. -/
def apply_mutation (sets : List RecordSet) (m : Mutation) : List RecordSet :=
  match m with
  | Mutation.create_recordset n t ttl recs d => sets ++ [⟨n, t, ttl, recs, d⟩]
  | Mutation.update_recordset old n t ttl recs d =>
      sets.map (fun r => if r = old then ⟨n, t, ttl, recs, d⟩ else r)
  | Mutation.delete_recordset old => sets.filter (fun r => r ≠ old)

/-- One iteration of the forward pass (lines 169-202) on a source record
set `sset`: skip self-referential NS sets and all SOA sets, otherwise
create, update or leave alone the matching target record set.  `none`
models the uncaught `AssertionError` from a non-unique lookup. -/
def forward_step (srcns dstns : List String) (prov : Provider) (st : SyncState)
    (sset : RecordSet) : Option SyncState :=
  if sset.type == "NS" && (set_equal sset.records srcns || set_equal sset.records dstns) then
    some { st with skipped := st.skipped + 1 }
  else if sset.type == "SOA" then
    some { st with skipped := st.skipped + 1 }
  else
    match find_record st.target sset with
    | Except.error _ => none
    | Except.ok none =>
      let m := Mutation.create_recordset sset.name sset.type sset.ttl sset.records sset.description
      if prov.mutOk m then
        some { st with calls := st.calls ++ [m], target := apply_mutation st.target m,
                       created := st.created + 1 }
      else
        some { st with calls := st.calls ++ [m], errs := st.errs + 1 }
    | Except.ok (some tset) =>
      if tset.ttl != sset.ttl || tset.records != sset.records || tset.description != sset.description then
        let m := Mutation.update_recordset tset sset.name sset.type sset.ttl sset.records sset.description
        if prov.mutOk m then
          some { st with calls := st.calls ++ [m], target := apply_mutation st.target m,
                         changed := st.changed + 1 }
        else
          some { st with calls := st.calls ++ [m], errs := st.errs + 1 }
      else
        some { st with nochg := st.nochg + 1 }

/-- One iteration of the backward cleanup pass (lines 205-215) on a target
record set `tset`: delete it when the source zone has no record set with
the same (name, type). -/
def backward_step (ssets : List RecordSet) (prov : Provider) (st : SyncState)
    (tset : RecordSet) : Option SyncState :=
  match find_record ssets tset with
  | Except.error _ => none
  | Except.ok (some _) => some st
  | Except.ok none =>
    let m := Mutation.delete_recordset tset
    if prov.mutOk m then
      some { st with calls := st.calls ++ [m], target := apply_mutation st.target m,
                     deleted := st.deleted + 1 }
    else
      some { st with calls := st.calls ++ [m], errs := st.errs + 1 }

/-- The forward copy loop of `sync_zone` over the source record sets. -/
def forward_pass (srcns dstns : List String) (prov : Provider) :
    SyncState → List RecordSet → Option SyncState
  | st, [] => some st
  | st, sset :: rest =>
    match forward_step srcns dstns prov st sset with
    | none => none
    | some st' => forward_pass srcns dstns prov st' rest

/-- The backward cleanup loop of `sync_zone` over the target record sets. -/
def backward_pass (ssets : List RecordSet) (prov : Provider) :
    SyncState → List RecordSet → Option SyncState
  | st, [] => some st
  | st, tset :: rest =>
    match backward_step ssets prov st tset with
    | none => none
    | some st' => backward_pass ssets prov st' rest

/-- Result of `sync_zone` for one zone: the returned error count, the
per-zone contribution to each global counter, the provider calls issued to
the target cloud and the target cloud's state afterwards. -/
structure SyncResult where
  errs : Nat
  domcreate : Nat
  skipped : Nat
  created : Nat
  changed : Nat
  nochg : Nat
  deleted : Nat
  calls : List Mutation
  cloud2After : Cloud
  deriving Repr, DecidableEq

/-- Python `str.split(" ")` on the character list: cut at every single
space, keeping empty fields (so consecutive spaces yield empty strings,
exactly as in Python). -/
def split_space : List Char → List (List Char)
  | [] => [[]]
  | c :: rest =>
    if c = ' ' then [] :: split_space rest
    else
      match split_space rest with
      | [] => [[c]]
      | w :: ws => (c :: w) :: ws

/-- `soastring.split(" ")` (line 146). -/
def py_split_space (s : String) : List String :=
  (split_space s.data).map (fun cs => String.mk cs)

/-- Line 128-129: append a trailing dot when `zone[-1] != '.'`. -/
def normalize_zone (z : String) : String :=
  if z.data.getLast? = some '.' then z else z ++ "."

/-- The `return 1` early exits of `sync_zone`: one error, nothing done. -/
def err_result (d2 : Cloud) : SyncResult :=
  { errs := 1, domcreate := 0, skipped := 0, created := 0, changed := 0,
    nochg := 0, deleted := 0, calls := [], cloud2After := d2 }

/-- Replace the target cloud's zone carrying `z.name` by `z`. -/
def update_zone (c : Cloud) (z : Zone) : Cloud :=
  { zones := c.zones.map (fun w => if w.name == z.name then z else w) }

/-- Lines 165-218 of `sync_zone`: fetch the target apex NS values (an
uncaught `IndexError` if the target zone has none, modelled as `none`),
run the forward pass over the source sets and, when `remove` is set, the
backward pass over the target sets fetched at line 166.  `d2` is the
target cloud as it was before any zone creation, so the resulting
`cloud2After` holds exactly one copy of the zone: the freshly created one
(appended) or the pre-existing one (replaced in place), carrying the
post-sync record sets. -/
def sync_zone_rest (ssets : List RecordSet) (srcns : List String) (prov : Provider)
    (remove : Bool) (tz : Zone) (zcreated : Bool) (d2 : Cloud) (zone : String) :
    Option SyncResult :=
  match recordsets tz.sets zone "NS" with
  | [] => none
  | tns :: _ =>
    let dstns := tns.records
    let tsets := tz.sets
    let st0 : SyncState := { target := tz.sets, calls := [], errs := 0, skipped := 0,
                             created := 0, changed := 0, nochg := 0, deleted := 0 }
    match forward_pass srcns dstns prov st0 ssets with
    | none => none
    | some st1 =>
      match (if remove then backward_pass ssets prov st1 tsets else some st1) with
      | none => none
      | some st2 =>
        let finalTz : Zone := { tz with sets := st2.target }
        some { errs := st2.errs, domcreate := if zcreated then 1 else 0,
               skipped := st2.skipped, created := st2.created, changed := st2.changed,
               nochg := st2.nochg, deleted := st2.deleted, calls := st2.calls,
               cloud2After :=
                 if zcreated then { zones := d2.zones ++ [finalTz] } else update_zone d2 finalTz }

/-- `sync_zone(dns1, dns2, zone, mail, remove, verbose)` (lines 121-218).
`none` models a crash of the whole run by an uncaught exception
(`IndexError`/`AssertionError`); `some r` a normal return with error count
`r.errs`.  Progress printing (`verbose`) has no observable effect and is
not modelled. -/
def sync_zone (d1 d2 : Cloud) (prov : Provider) (zone0 : String)
    (mail : Option String) (remove : Bool) : Option SyncResult :=
  if zone0.data.isEmpty then none
  else
    let zone := normalize_zone zone0
    match find_zone d1 zone with
    | none => some (err_result d2)
    | some szone =>
      let ssets := szone.sets
      match recordsets ssets zone "NS" with
      | [] => some (err_result d2)
      | nsrec :: _ =>
        match recordsets ssets zone "SOA" with
        | [] => some (err_result d2)
        | soarec :: _ =>
          let srcns := nsrec.records
          match soarec.records with
          | [] => none
          | soa0 :: _ =>
            let srcsoa := py_split_space soa0
            let soamail := match mail with | some m => m | none => szone.email
            match find_zone d2 zone with
            | some tz => sync_zone_rest ssets srcns prov remove tz false d2 zone
            | none =>
              match srcsoa.get? 4 with
              | none => none
              | some ttlstr =>
                match prov.createZone zone ttlstr soamail szone.description with
                | none => some (err_result d2)
                | some tz =>
                  sync_zone_rest ssets srcns prov remove tz true d2 zone

/-- Aggregated run state of `main`: the global statistics counters, the
accumulated error count, all provider calls issued and the target cloud's
state. -/
structure RunResult where
  errs : Nat
  nodom : Nat
  nodomcreate : Nat
  noreccreate : Nat
  norecchange : Nat
  norecnochg : Nat
  norecdelete : Nat
  norecskip : Nat
  calls : List Mutation
  cloud2 : Cloud
  deriving Repr, DecidableEq

/-- The zone loop of `main` (lines 246-249): `errs += sync_zone(...)` then
`nodom += 1` for every requested zone name; a crashed `sync_zone` aborts
the whole run. -/
def main_loop (d1 : Cloud) (prov : Provider) (mail : Option String) (remove : Bool) :
    RunResult → List String → Option RunResult
  | acc, [] => some acc
  | acc, z :: rest =>
    match sync_zone d1 acc.cloud2 prov z mail remove with
    | none => none
    | some r =>
      main_loop d1 prov mail remove
        { errs := acc.errs + r.errs, nodom := acc.nodom + 1,
          nodomcreate := acc.nodomcreate + r.domcreate,
          noreccreate := acc.noreccreate + r.created,
          norecchange := acc.norecchange + r.changed,
          norecnochg := acc.norecnochg + r.nochg,
          norecdelete := acc.norecdelete + r.deleted,
          norecskip := acc.norecskip + r.skipped,
          calls := acc.calls ++ r.calls,
          cloud2 := r.cloud2After } rest

/-- Fresh-process counter state before the zone loop. -/
def init_run (d2 : Cloud) : RunResult :=
  { errs := 0, nodom := 0, nodomcreate := 0, noreccreate := 0, norecchange := 0,
    norecnochg := 0, norecdelete := 0, norecskip := 0, calls := [], cloud2 := d2 }

/-- `main` restricted to its zone loop (lines 246-257), over the resolved
zone-name list; returns the accumulated run state (whose `errs` is `main`'s
return value), or `none` when the run crashed. -/
def main_run (d1 d2 : Cloud) (prov : Provider) (zones : List String)
    (mail : Option String) (remove : Bool) : Option RunResult :=
  main_loop d1 prov mail remove (init_run d2) zones

/-- The module-level call site (lines 261-262) executes `main(sys.argv)`
and discards its return value, so a normally terminating process exits
with status 0; an uncaught exception makes the interpreter exit 1. -/
def script_exit_code (d1 d2 : Cloud) (prov : Provider) (zones : List String)
    (mail : Option String) (remove : Bool) : Nat :=
  match main_run d1 d2 prov zones mail remove with
  | some _ => 0
  | none => 1

/-- The (name, type) key of a record set. -/
def pairNT (r : RecordSet) : String × String := (r.name, r.type)

/-- The zone invariant: no two record sets share a (name, type) key. -/
def pairsNodup (sets : List RecordSet) : Prop :=
  (sets.map pairNT).Nodup

instance (sets : List RecordSet) : Decidable (pairsNodup sets) := by
  unfold pairsNodup; infer_instance

/-- A source record set reaches the generic create/update logic of the
forward pass: it is not an SOA set, and not an NS set whose values match
either zone's apex NS values. -/
def reaches_generic (srcns dstns : List String) (s : RecordSet) : Bool :=
  !(s.type == "NS" && (set_equal s.records srcns || set_equal s.records dstns))
    && !(s.type == "SOA")

/-- Does a mutation touch an apex SOA record set of zone `zone`? -/
def mut_is_apex_soa (zone : String) (m : Mutation) : Bool :=
  match m with
  | Mutation.create_recordset n t _ _ _ => n == zone && t == "SOA"
  | Mutation.update_recordset old n t _ _ _ =>
      (n == zone && t == "SOA") || (old.name == zone && old.type == "SOA")
  | Mutation.delete_recordset old => old.name == zone && old.type == "SOA"

/-- Is the mutation a create? -/
def mut_is_create (m : Mutation) : Bool :=
  match m with
  | Mutation.create_recordset _ _ _ _ _ => true
  | _ => false

/-- Is the mutation an update? -/
def mut_is_update (m : Mutation) : Bool :=
  match m with
  | Mutation.update_recordset _ _ _ _ _ _ => true
  | _ => false

/-- Is the mutation a delete? -/
def mut_is_delete (m : Mutation) : Bool :=
  match m with
  | Mutation.delete_recordset _ => true
  | _ => false

/-- Does the mutation involve a record set of type SOA (either the new
fields or the pre-existing record set it addresses)? -/
def mut_type_soa (m : Mutation) : Bool :=
  match m with
  | Mutation.create_recordset _ t _ _ _ => t == "SOA"
  | Mutation.update_recordset old _ t _ _ _ => t == "SOA" || old.type == "SOA"
  | Mutation.delete_recordset old => old.type == "SOA"

/-! ## Concrete fixtures

Small concrete clouds used by witnesses and counterexamples. -/

/-- Apex NS record set of the source zone `z.`. -/
def apexNS_src : RecordSet := ⟨"z.", "NS", 300, ["ns1.src."], ""⟩

/-- Apex SOA record set of the source zone `z.`. -/
def apexSOA_src : RecordSet := ⟨"z.", "SOA", 300, ["ns1.src. mail.z. 1 2 300"], ""⟩

/-- Apex NS record set of the target zone `z.`. -/
def apexNS_dst : RecordSet := ⟨"z.", "NS", 300, ["ns1.dst."], ""⟩

/-- Apex SOA record set of the target zone `z.`. -/
def apexSOA_dst : RecordSet := ⟨"z.", "SOA", 300, ["ns1.dst. mail.z. 9 2 300"], ""⟩

/-- A sub-zone NS record set on the target whose values are the target's
own apex NS values and which has no source counterpart. -/
def subNS_dst : RecordSet := ⟨"sub.z.", "NS", 300, ["ns1.dst."], ""⟩

/-- An ordinary A record set present only in the source. -/
def aRec : RecordSet := ⟨"www.z.", "A", 120, ["1.2.3.4"], "web"⟩

/-- Provider on which every record-level call succeeds. -/
def okProv : Provider := { mutOk := fun _ => true, createZone := fun _ _ _ _ => none }

/-- Provider on which every record-level call fails. -/
def failProv : Provider := { mutOk := fun _ => false, createZone := fun _ _ _ _ => none }

/-- Source cloud hosting `z.` with apex NS, apex SOA and one A record. -/
def srcCloud : Cloud := ⟨[⟨"z.", "adm@z", "", [apexNS_src, apexSOA_src, aRec]⟩]⟩

/-- Source cloud hosting `z.` with only the apex NS and SOA record sets. -/
def srcCloudBare : Cloud := ⟨[⟨"z.", "adm@z", "", [apexNS_src, apexSOA_src]⟩]⟩

/-- Target cloud hosting `z.` with apex NS, apex SOA, and a stray sub-zone
NS record set pointing at the target's own nameservers. -/
def dstCloud : Cloud := ⟨[⟨"z.", "adm@z", "", [apexNS_dst, apexSOA_dst, subNS_dst]⟩]⟩

/-- Target cloud whose `z.` zone has no NS record set at all. -/
def dstCloudNoNS : Cloud := ⟨[⟨"z.", "adm@z", "", [apexSOA_dst]⟩]⟩

/-- Source cloud for the zone-loop witness: a zone with no apex NS, a zone
with no apex SOA, and a healthy zone missing from the target. -/
def srcCloudFatal : Cloud := ⟨[
  ⟨"nons.", "a@b", "", [⟨"nons.", "SOA", 300, ["ns. mail. 1 2 300"], ""⟩]⟩,
  ⟨"nosoa.", "a@b", "", [⟨"nosoa.", "NS", 300, ["ns1.src."], ""⟩]⟩,
  ⟨"nocreate.", "a@b", "", [⟨"nocreate.", "NS", 300, ["ns1.src."], ""⟩,
                            ⟨"nocreate.", "SOA", 300, ["ns. mail. 1 2 300"], ""⟩]⟩]⟩

/-- An empty sync state over an empty target. -/
def stEmpty : SyncState := ⟨[], [], 0, 0, 0, 0, 0, 0⟩

/-- The result of the reference run `sync_zone srcCloud dstCloud okProv
"z." none true`, spelled out: the A record is created, the stray sub-zone
NS set is deleted, the two source apex sets are skipped. -/
def refRun1 : SyncResult :=
  { errs := 0, domcreate := 0, skipped := 2, created := 1, changed := 0,
    nochg := 0, deleted := 1,
    calls := [Mutation.create_recordset "www.z." "A" 120 ["1.2.3.4"] "web",
              Mutation.delete_recordset subNS_dst],
    cloud2After := ⟨[⟨"z.", "adm@z", "", [apexNS_dst, apexSOA_dst, aRec]⟩]⟩ }

/-- The same reference run without remove-extras: the A record is created,
nothing is deleted. -/
def refRunNoRem : SyncResult :=
  { errs := 0, domcreate := 0, skipped := 2, created := 1, changed := 0,
    nochg := 0, deleted := 0,
    calls := [Mutation.create_recordset "www.z." "A" 120 ["1.2.3.4"] "web"],
    cloud2After := ⟨[⟨"z.", "adm@z", "", [apexNS_dst, apexSOA_dst, subNS_dst, aRec]⟩]⟩ }

/-- `sync_zone srcCloudBare dstCloud okProv "z." none true`: the stray
sub-zone NS set is the only extra and is deleted. -/
def refRunBare : SyncResult :=
  { errs := 0, domcreate := 0, skipped := 2, created := 0, changed := 0,
    nochg := 0, deleted := 1,
    calls := [Mutation.delete_recordset subNS_dst],
    cloud2After := ⟨[⟨"z.", "adm@z", "", [apexNS_dst, apexSOA_dst]⟩]⟩ }

/-- `sync_zone srcCloud dstCloud failProv "z." none true`: both issued
calls fail, giving two errors while every success counter stays 0. -/
def refRunFail : SyncResult :=
  { errs := 2, domcreate := 0, skipped := 2, created := 0, changed := 0,
    nochg := 0, deleted := 0,
    calls := [Mutation.create_recordset "www.z." "A" 120 ["1.2.3.4"] "web",
              Mutation.delete_recordset subNS_dst],
    cloud2After := dstCloud }

/-- Provider that accepts every record-level call and creates zones under
the requested name, seeding them with the target's apex NS and SOA sets
(as the real provider does at zone creation). -/
def createProv : Provider :=
  { mutOk := fun _ => true,
    createZone := fun name _ em de => some ⟨name, em, de, [apexNS_dst, apexSOA_dst]⟩ }

/-- `sync_zone srcCloud ⟨[]⟩ createProv "z." none true`: the target zone is
created, the A record copied into it, the apex sets skipped. -/
def refRunCreate : SyncResult :=
  { errs := 0, domcreate := 1, skipped := 2, created := 1, changed := 0,
    nochg := 0, deleted := 0,
    calls := [Mutation.create_recordset "www.z." "A" 120 ["1.2.3.4"] "web"],
    cloud2After := ⟨[⟨"z.", "adm@z", "", [apexNS_dst, apexSOA_dst, aRec]⟩]⟩ }

/-- Run state of the reference zone loop over four zones that all end in a
per-zone fatal error (missing source zone, missing apex NS, missing apex
SOA, failed target-zone creation). -/
def fatalRunR : RunResult :=
  { errs := 4, nodom := 4, nodomcreate := 0, noreccreate := 0, norecchange := 0,
    norecnochg := 0, norecdelete := 0, norecskip := 0, calls := [], cloud2 := ⟨[]⟩ }

/-! ## Basic lemmas about the record model -/

theorem mem_recordsets {sets : List RecordSet} {n t : String} {r : RecordSet}
    (h : r ∈ recordsets sets n t) : r ∈ sets ∧ r.name = n ∧ r.type = t := by
  unfold recordsets at h
  rw [List.mem_filter] at h
  simp only [Bool.and_eq_true, beq_iff_eq] at h
  exact ⟨h.1, h.2.1, h.2.2⟩

theorem self_mem_recordsets {sets : List RecordSet} {r : RecordSet} (h : r ∈ sets) :
    r ∈ recordsets sets r.name r.type := by
  unfold recordsets
  rw [List.mem_filter]
  exact ⟨h, by simp⟩

theorem recordsets_length_le_one {sets : List RecordSet} (h : pairsNodup sets)
    (n t : String) : (recordsets sets n t).length ≤ 1 := by
  induction sets with
  | nil => simp [recordsets]
  | cons a l ih =>
    unfold pairsNodup at h
    rw [List.map_cons, List.nodup_cons] at h
    unfold recordsets at *
    rw [List.filter_cons]
    split
    · rename_i hpred
      simp only [Bool.and_eq_true, beq_iff_eq] at hpred
      have hnil : l.filter (fun r => r.name == n && r.type == t) = [] := by
        rw [List.filter_eq_nil_iff]
        intro x hx hpx
        simp only [Bool.and_eq_true, beq_iff_eq] at hpx
        exact h.1 (by
          rw [List.mem_map]
          exact ⟨x, hx, by unfold pairNT; rw [hpx.1, hpx.2, hpred.1, hpred.2]⟩)
      simp [hnil]
    · exact ih h.2

theorem find_record_of_nil {sets : List RecordSet} {rec : RecordSet}
    (h : recordsets sets rec.name rec.type = []) :
    find_record sets rec = Except.ok none := by
  unfold find_record
  rw [h]

theorem find_record_of_single {sets : List RecordSet} {rec t : RecordSet}
    (h : recordsets sets rec.name rec.type = [t]) :
    find_record sets rec = Except.ok (some t) := by
  unfold find_record
  rw [h]

theorem find_record_some_inv {sets : List RecordSet} {rec t : RecordSet}
    (h : find_record sets rec = Except.ok (some t)) :
    recordsets sets rec.name rec.type = [t] := by
  unfold find_record at h
  cases hc : recordsets sets rec.name rec.type with
  | nil => rw [hc] at h; simp at h
  | cons a l =>
    cases l with
    | nil => rw [hc] at h; simp only [Except.ok.injEq, Option.some.injEq] at h; rw [h]
    | cons b l' => rw [hc] at h; simp at h

theorem find_record_of_nodup {sets : List RecordSet} (rec : RecordSet)
    (h : pairsNodup sets) :
    find_record sets rec = Except.ok ((recordsets sets rec.name rec.type).head?) := by
  have hlen := recordsets_length_le_one h rec.name rec.type
  unfold find_record
  cases hc : recordsets sets rec.name rec.type with
  | nil => rfl
  | cons a l =>
    cases l with
    | nil => rfl
    | cons b l' => rw [hc] at hlen; simp at hlen

theorem set_equal_refl (l : List String) : set_equal l l = true := by
  unfold set_equal
  rw [Bool.and_eq_true, List.all_eq_true]
  constructor <;> (intro a ha; simpa using ha)

theorem find_record_none_inv {sets : List RecordSet} {rec : RecordSet}
    (h : find_record sets rec = Except.ok none) :
    recordsets sets rec.name rec.type = [] := by
  unfold find_record at h
  cases hc : recordsets sets rec.name rec.type with
  | nil => rfl
  | cons a l =>
    cases l with
    | nil => rw [hc] at h; simp at h
    | cons b l' => rw [hc] at h; simp at h

theorem mut_not_soa_not_apex {zone : String} {m : Mutation}
    (h : mut_type_soa m = false) : mut_is_apex_soa zone m = false := by
  cases m with
  | create_recordset n t ttl recs d =>
    simp only [mut_type_soa] at h
    simp [mut_is_apex_soa, h]
  | update_recordset old n t ttl recs d =>
    simp only [mut_type_soa, Bool.or_eq_false_iff] at h
    simp [mut_is_apex_soa, h.1, h.2]
  | delete_recordset old =>
    simp only [mut_type_soa] at h
    simp [mut_is_apex_soa, h]

/-! ## Bookkeeping of the forward pass -/

theorem forward_step_bk {srcns dstns : List String} {prov : Provider}
    {st st' : SyncState} {s : RecordSet}
    (h : forward_step srcns dstns prov st s = some st') :
    ∃ new, st'.calls = st.calls ++ new
      ∧ (∀ m ∈ new, mut_is_delete m = false ∧ mut_type_soa m = false)
      ∧ st'.errs = st.errs + new.countP (fun m => !prov.mutOk m)
      ∧ st'.created = st.created + new.countP (fun m => mut_is_create m && prov.mutOk m)
      ∧ st'.changed = st.changed + new.countP (fun m => mut_is_update m && prov.mutOk m)
      ∧ st'.deleted = st.deleted := by
  simp only [forward_step] at h
  split at h
  · simp only [Option.some.injEq] at h
    subst h
    exact ⟨[], by simp, by simp, by simp, by simp, by simp, by simp⟩
  · split at h
    · simp only [Option.some.injEq] at h
      subst h
      exact ⟨[], by simp, by simp, by simp, by simp, by simp, by simp⟩
    · rename_i hns hsoa
      rw [Bool.not_eq_true] at hsoa
      split at h
      · exact absurd h (by simp)
      · -- create branch
        split at h <;> (simp only [Option.some.injEq] at h; subst h)
        · rename_i hok
          refine ⟨[Mutation.create_recordset s.name s.type s.ttl s.records s.description],
            rfl, ?_, ?_, ?_, ?_, ?_⟩
          · intro m hm
            simp only [List.mem_singleton] at hm
            subst hm
            exact ⟨rfl, by simp only [mut_type_soa]; exact hsoa⟩
          · simp [hok]
          · simp [hok, mut_is_create]
          · simp [mut_is_update]
          · rfl
        · rename_i hok
          rw [Bool.not_eq_true] at hok
          refine ⟨[Mutation.create_recordset s.name s.type s.ttl s.records s.description],
            rfl, ?_, ?_, ?_, ?_, ?_⟩
          · intro m hm
            simp only [List.mem_singleton] at hm
            subst hm
            exact ⟨rfl, by simp only [mut_type_soa]; exact hsoa⟩
          · simp [hok]
          · simp [hok]
          · simp [hok]
          · rfl
      · -- update / nochange branch
        rename_i tset hfind
        have htt : tset.type = s.type := by
          have hmem : tset ∈ recordsets st.target s.name s.type := by
            rw [find_record_some_inv hfind]; exact List.mem_singleton.mpr rfl
          exact (mem_recordsets hmem).2.2
        have htsoa : (tset.type == "SOA") = false := by rw [htt]; exact hsoa
        split at h
        · split at h <;> (simp only [Option.some.injEq] at h; subst h)
          · rename_i hok
            refine ⟨[Mutation.update_recordset tset s.name s.type s.ttl s.records s.description],
              rfl, ?_, ?_, ?_, ?_, ?_⟩
            · intro m hm
              simp only [List.mem_singleton] at hm
              subst hm
              exact ⟨rfl, by simp only [mut_type_soa]; simp [hsoa, htsoa]⟩
            · simp [hok]
            · simp [mut_is_create]
            · simp [hok, mut_is_update]
            · rfl
          · rename_i hok
            rw [Bool.not_eq_true] at hok
            refine ⟨[Mutation.update_recordset tset s.name s.type s.ttl s.records s.description],
              rfl, ?_, ?_, ?_, ?_, ?_⟩
            · intro m hm
              simp only [List.mem_singleton] at hm
              subst hm
              exact ⟨rfl, by simp only [mut_type_soa]; simp [hsoa, htsoa]⟩
            · simp [hok]
            · simp [hok]
            · simp [hok]
            · rfl
        · simp only [Option.some.injEq] at h
          subst h
          exact ⟨[], by simp, by simp, by simp, by simp, by simp, by simp⟩

theorem forward_pass_bk (srcns dstns : List String) (prov : Provider) :
    ∀ (L : List RecordSet) (st st' : SyncState),
      forward_pass srcns dstns prov st L = some st' →
      ∃ new, st'.calls = st.calls ++ new
        ∧ (∀ m ∈ new, mut_is_delete m = false ∧ mut_type_soa m = false)
        ∧ st'.errs = st.errs + new.countP (fun m => !prov.mutOk m)
        ∧ st'.created = st.created + new.countP (fun m => mut_is_create m && prov.mutOk m)
        ∧ st'.changed = st.changed + new.countP (fun m => mut_is_update m && prov.mutOk m)
        ∧ st'.deleted = st.deleted := by
  intro L
  induction L with
  | nil =>
    intro st st' h
    simp only [forward_pass, Option.some.injEq] at h
    subst h
    exact ⟨[], by simp, by simp, by simp, by simp, by simp, by simp⟩
  | cons s rest ih =>
    intro st st' h
    simp only [forward_pass] at h
    cases hs : forward_step srcns dstns prov st s with
    | none => rw [hs] at h; cases h
    | some st1 =>
      rw [hs] at h
      obtain ⟨n1, hc1, hp1, he1, hcr1, hch1, hd1⟩ := forward_step_bk hs
      obtain ⟨n2, hc2, hp2, he2, hcr2, hch2, hd2⟩ := ih st1 st' h
      refine ⟨n1 ++ n2, ?_, ?_, ?_, ?_, ?_, ?_⟩
      · rw [hc2, hc1, List.append_assoc]
      · intro m hm
        rcases List.mem_append.mp hm with hm | hm
        exacts [hp1 m hm, hp2 m hm]
      · rw [he2, he1, List.countP_append]; omega
      · rw [hcr2, hcr1, List.countP_append]; omega
      · rw [hch2, hch1, List.countP_append]; omega
      · rw [hd2, hd1]

/-! ## Bookkeeping of the backward pass -/

theorem backward_step_bk {ssets : List RecordSet} {prov : Provider}
    {st st' : SyncState} {t : RecordSet}
    (h : backward_step ssets prov st t = some st') :
    ∃ new, st'.calls = st.calls ++ new
      ∧ (∀ m ∈ new, m = Mutation.delete_recordset t ∧ recordsets ssets t.name t.type = [])
      ∧ st'.errs = st.errs + new.countP (fun m => !prov.mutOk m)
      ∧ st'.created = st.created ∧ st'.changed = st.changed
      ∧ st'.deleted = st.deleted + new.countP (fun m => prov.mutOk m) := by
  simp only [backward_step] at h
  split at h
  · exact absurd h (by simp)
  · simp only [Option.some.injEq] at h
    subst h
    exact ⟨[], by simp, by simp, by simp, by simp, by simp, by simp⟩
  · rename_i hfind
    have hnil := find_record_none_inv hfind
    split at h <;> (simp only [Option.some.injEq] at h; subst h)
    · rename_i hok
      refine ⟨[Mutation.delete_recordset t], rfl, ?_, ?_, rfl, rfl, ?_⟩
      · intro m hm
        simp only [List.mem_singleton] at hm
        subst hm
        exact ⟨rfl, hnil⟩
      · simp [hok]
      · simp [hok]
    · rename_i hok
      rw [Bool.not_eq_true] at hok
      refine ⟨[Mutation.delete_recordset t], rfl, ?_, ?_, rfl, rfl, ?_⟩
      · intro m hm
        simp only [List.mem_singleton] at hm
        subst hm
        exact ⟨rfl, hnil⟩
      · simp [hok]
      · simp [hok]

theorem backward_pass_bk (ssets : List RecordSet) (prov : Provider) :
    ∀ (L : List RecordSet) (st st' : SyncState),
      backward_pass ssets prov st L = some st' →
      ∃ new, st'.calls = st.calls ++ new
        ∧ (∀ m ∈ new, ∃ t, t ∈ L ∧ m = Mutation.delete_recordset t
            ∧ recordsets ssets t.name t.type = [])
        ∧ st'.errs = st.errs + new.countP (fun m => !prov.mutOk m)
        ∧ st'.created = st.created ∧ st'.changed = st.changed
        ∧ st'.deleted = st.deleted + new.countP (fun m => prov.mutOk m) := by
  intro L
  induction L with
  | nil =>
    intro st st' h
    simp only [backward_pass, Option.some.injEq] at h
    subst h
    exact ⟨[], by simp, by simp, by simp, by simp, by simp, by simp⟩
  | cons t0 rest ih =>
    intro st st' h
    simp only [backward_pass] at h
    cases hs : backward_step ssets prov st t0 with
    | none => rw [hs] at h; cases h
    | some st1 =>
      rw [hs] at h
      obtain ⟨n1, hc1, hp1, he1, hcr1, hch1, hd1⟩ := backward_step_bk hs
      obtain ⟨n2, hc2, hp2, he2, hcr2, hch2, hd2⟩ := ih st1 st' h
      refine ⟨n1 ++ n2, ?_, ?_, ?_, ?_, ?_, ?_⟩
      · rw [hc2, hc1, List.append_assoc]
      · intro m hm
        rcases List.mem_append.mp hm with hm | hm
        · obtain ⟨hm1, hm2⟩ := hp1 m hm
          exact ⟨t0, List.mem_cons_self _ _, hm1, hm2⟩
        · obtain ⟨t, htl, hm1, hm2⟩ := hp2 m hm
          exact ⟨t, List.mem_cons_of_mem _ htl, hm1, hm2⟩
      · rw [he2, he1, List.countP_append]; omega
      · rw [hcr2, hcr1]
      · rw [hch2, hch1]
      · rw [hd2, hd1, List.countP_append]; omega

theorem backward_pass_count (ssets : List RecordSet) (prov : Provider) (t : RecordSet)
    (hmiss : recordsets ssets t.name t.type = []) :
    ∀ (L : List RecordSet) (st st' : SyncState),
      backward_pass ssets prov st L = some st' →
      st'.calls.countP (fun m => m == Mutation.delete_recordset t)
        = st.calls.countP (fun m => m == Mutation.delete_recordset t)
          + L.countP (fun x => x == t) := by
  intro L
  induction L with
  | nil =>
    intro st st' h
    simp only [backward_pass, Option.some.injEq] at h
    subst h
    simp
  | cons t0 rest ih =>
    intro st st' h
    simp only [backward_pass] at h
    cases hs : backward_step ssets prov st t0 with
    | none => rw [hs] at h; cases h
    | some st1 =>
      rw [hs] at h
      have hrest := ih st1 st' h
      by_cases ht0 : t0 = t
      · subst ht0
        -- the head is the unmatched record itself: one delete call is issued
        simp only [backward_step, find_record_of_nil hmiss] at hs
        have hcalls : st1.calls = st.calls ++ [Mutation.delete_recordset t0] := by
          split at hs <;> (simp only [Option.some.injEq] at hs; subst hs) <;> rfl
        rw [hrest, hcalls, List.countP_append]
        simp [List.countP_cons]
        omega
      · obtain ⟨n1, hc1, hp1, _, _, _, _⟩ := backward_step_bk hs
        have hzero : n1.countP (fun m => m == Mutation.delete_recordset t) = 0 := by
          rw [List.countP_eq_zero]
          intro m hm
          obtain ⟨hm1, _⟩ := hp1 m hm
          subst hm1
          simp [ht0]
        rw [hrest, hc1, List.countP_append, hzero]
        have : (fun x => x == t) t0 = false := by simp [ht0]
        simp [List.countP_cons, this]

/-! ## Inversion of `sync_zone` -/

theorem sync_zone_cases (d1 d2 : Cloud) (prov : Provider) (z0 : String)
    (mail : Option String) (remove : Bool) (r : SyncResult)
    (h : sync_zone d1 d2 prov z0 mail remove = some r) :
    r = err_result d2
    ∨ ∃ (sz tz : Zone) (zc : Bool) (d2' : Cloud) (nsrec : RecordSet) (nsrest : List RecordSet),
        find_zone d1 (normalize_zone z0) = some sz
        ∧ recordsets sz.sets (normalize_zone z0) "NS" = nsrec :: nsrest
        ∧ recordsets sz.sets (normalize_zone z0) "SOA" ≠ []
        ∧ sync_zone_rest sz.sets nsrec.records prov remove tz zc d2' (normalize_zone z0)
            = some r := by
  simp only [sync_zone] at h
  split at h
  · exact absurd h (by simp)
  · split at h
    · left
      simp only [Option.some.injEq] at h
      exact h.symm
    · rename_i sz hsz
      split at h
      · left
        simp only [Option.some.injEq] at h
        exact h.symm
      · rename_i nsrec nsrest hns
        split at h
        · left
          simp only [Option.some.injEq] at h
          exact h.symm
        · rename_i soarec soarest hsoa
          split at h
          · exact absurd h (by simp)
          · rename_i soa0 soatail hrec
            split at h
            · rename_i tz htz
              exact Or.inr ⟨sz, tz, false, d2, nsrec, nsrest, hsz, hns, by simp [hsoa], h⟩
            · split at h
              · exact absurd h (by simp)
              · split at h
                · left
                  simp only [Option.some.injEq] at h
                  exact h.symm
                · rename_i tz hcz
                  exact Or.inr ⟨sz, tz, true, d2, nsrec, nsrest,
                    hsz, hns, by simp [hsoa], h⟩

/-! ## Claim C3 -/

theorem sync_zone_rest_no_apex_soa (ssets : List RecordSet) (srcns : List String)
    (prov : Provider) (remove : Bool) (tz : Zone) (zc : Bool) (d2 : Cloud) (zone : String)
    (hsoa : recordsets ssets zone "SOA" ≠ [])
    (r : SyncResult) (h : sync_zone_rest ssets srcns prov remove tz zc d2 zone = some r) :
    ∀ m ∈ r.calls, mut_is_apex_soa zone m = false := by
  simp only [sync_zone_rest] at h
  split at h
  · exact absurd h (by simp)
  · rename_i tns trest htns
    split at h
    · exact absurd h (by simp)
    · rename_i st1 hfwd
      split at h
      · exact absurd h (by simp)
      · rename_i st2 hbwd
        simp only [Option.some.injEq] at h
        subst h
        intro m hm
        simp only at hm
        obtain ⟨n1, hc1, hp1, _, _, _, _⟩ := forward_pass_bk _ _ prov _ _ _ hfwd
        simp only [List.nil_append] at hc1
        by_cases hrem : remove = true
        · rw [if_pos hrem] at hbwd
          obtain ⟨n2, hc2, hp2, _, _, _, _⟩ := backward_pass_bk _ prov _ _ _ hbwd
          rw [hc2, hc1] at hm
          rcases List.mem_append.mp hm with hm | hm
          · exact mut_not_soa_not_apex (hp1 m hm).2
          · obtain ⟨t, _, hmt, hunmatched⟩ := hp2 m hm
            subst hmt
            simp only [mut_is_apex_soa]
            by_contra habs
            rw [Bool.not_eq_false, Bool.and_eq_true, beq_iff_eq, beq_iff_eq] at habs
            rw [habs.1, habs.2] at hunmatched
            exact hsoa hunmatched
        · rw [if_neg hrem] at hbwd
          simp only [Option.some.injEq] at hbwd
          subst hbwd
          rw [hc1] at hm
          exact mut_not_soa_not_apex (hp1 m hm).2

/-- C3: in any completed `sync_zone` run, no issued provider call touches
an apex SOA record set of the zone: the forward pass skips every SOA set,
and the backward pass never deletes the target's apex SOA because the
source (whose apex SOA presence is checked before the passes run) has a
matching (name, type) record set. -/
theorem c3_apex_soa_never_mutated (d1 d2 : Cloud) (prov : Provider) (z0 : String)
    (mail : Option String) (remove : Bool) (r : SyncResult)
    (h : sync_zone d1 d2 prov z0 mail remove = some r) :
    ∀ m ∈ r.calls, mut_is_apex_soa (normalize_zone z0) m = false := by
  rcases sync_zone_cases d1 d2 prov z0 mail remove r h with herr | hrest
  · subst herr
    intro m hm
    simp [err_result] at hm
  · obtain ⟨sz, tz, zc, d2', nsrec, nsrest, _, _, hsoa, hr⟩ := hrest
    exact sync_zone_rest_no_apex_soa _ _ prov remove tz zc d2' _ hsoa r hr

/-- Witness for C3 on the reference run: its first issued call (the
A-record create) touches no apex SOA set. -/
theorem c3_witness :
    sync_zone srcCloud dstCloud okProv "z." none true = some refRun1
    ∧ mut_is_apex_soa (normalize_zone "z.")
        (Mutation.create_recordset "www.z." "A" 120 ["1.2.3.4"] "web") = false :=
  ⟨by decide,
   c3_apex_soa_never_mutated srcCloud dstCloud okProv "z." none true refRun1 (by decide)
     (Mutation.create_recordset "www.z." "A" 120 ["1.2.3.4"] "web") (by decide)⟩

/-! ## Full inversion of the two passes -/

theorem sync_zone_rest_inv {ssets : List RecordSet} {srcns : List String} {prov : Provider}
    {remove : Bool} {tz : Zone} {zc : Bool} {d2 : Cloud} {zone : String} {r : SyncResult}
    (h : sync_zone_rest ssets srcns prov remove tz zc d2 zone = some r) :
    ∃ (tns : RecordSet) (trest : List RecordSet) (st1 st2 : SyncState),
      recordsets tz.sets zone "NS" = tns :: trest
      ∧ forward_pass srcns tns.records prov
          { target := tz.sets, calls := [], errs := 0, skipped := 0,
            created := 0, changed := 0, nochg := 0, deleted := 0 } ssets = some st1
      ∧ (if remove then backward_pass ssets prov st1 tz.sets else some st1) = some st2
      ∧ r.errs = st2.errs ∧ r.calls = st2.calls ∧ r.created = st2.created
      ∧ r.changed = st2.changed ∧ r.deleted = st2.deleted ∧ r.nochg = st2.nochg
      ∧ r.skipped = st2.skipped
      ∧ r.domcreate = (if zc then 1 else 0)
      ∧ r.cloud2After = (if zc then { zones := d2.zones ++ [{ tz with sets := st2.target }] }
          else update_zone d2 { tz with sets := st2.target }) := by
  simp only [sync_zone_rest] at h
  split at h
  · exact absurd h (by simp)
  · rename_i tns trest htns
    split at h
    · exact absurd h (by simp)
    · rename_i st1 hfwd
      split at h
      · exact absurd h (by simp)
      · rename_i st2 hbwd
        simp only [Option.some.injEq] at h
        subst h
        exact ⟨tns, trest, st1, st2, htns, hfwd, hbwd,
          rfl, rfl, rfl, rfl, rfl, rfl, rfl, rfl, rfl⟩

theorem sync_zone_inv_found {d1 d2 : Cloud} {prov : Provider} {z0 : String}
    {mail : Option String} {remove : Bool} {sz tz : Zone} {r : SyncResult}
    (hsz : find_zone d1 (normalize_zone z0) = some sz)
    (htz : find_zone d2 (normalize_zone z0) = some tz)
    (hns : recordsets sz.sets (normalize_zone z0) "NS" ≠ [])
    (hsoa : recordsets sz.sets (normalize_zone z0) "SOA" ≠ [])
    (h : sync_zone d1 d2 prov z0 mail remove = some r) :
    ∃ (nsrec : RecordSet) (nsrest : List RecordSet) (soarec : RecordSet)
      (soarest : List RecordSet) (soa0 : String) (soatail : List String),
      recordsets sz.sets (normalize_zone z0) "NS" = nsrec :: nsrest
      ∧ recordsets sz.sets (normalize_zone z0) "SOA" = soarec :: soarest
      ∧ soarec.records = soa0 :: soatail
      ∧ sync_zone_rest sz.sets nsrec.records prov remove tz false d2 (normalize_zone z0)
          = some r := by
  simp only [sync_zone] at h
  split at h
  · exact absurd h (by simp)
  · split at h
    · rename_i heq
      rw [hsz] at heq
      exact absurd heq (by simp)
    · rename_i szone heq
      rw [hsz] at heq
      simp only [Option.some.injEq] at heq
      subst heq
      split at h
      · rename_i hns0
        exact absurd hns0 hns
      · rename_i nsrec nsrest hns0
        split at h
        · rename_i hsoa0
          exact absurd hsoa0 hsoa
        · rename_i soarec soarest hsoa0
          split at h
          · exact absurd h (by simp)
          · rename_i soa0 soatail hrec0
            split at h
            · rename_i tzz htz0
              rw [htz] at htz0
              simp only [Option.some.injEq] at htz0
              subst htz0
              exact ⟨nsrec, nsrest, soarec, soarest, soa0, soatail, hns0, hsoa0, hrec0, h⟩
            · rename_i htz0
              rw [htz] at htz0
              exact absurd htz0 (by simp)

theorem sync_zone_inv_created {d1 d2 : Cloud} {prov : Provider} {z0 : String}
    {mail : Option String} {remove : Bool} {sz : Zone} {r : SyncResult}
    (hsz : find_zone d1 (normalize_zone z0) = some sz)
    (htz : find_zone d2 (normalize_zone z0) = none)
    (hns : recordsets sz.sets (normalize_zone z0) "NS" ≠ [])
    (hsoa : recordsets sz.sets (normalize_zone z0) "SOA" ≠ [])
    (h : sync_zone d1 d2 prov z0 mail remove = some r) :
    r = err_result d2
    ∨ ∃ (nsrec : RecordSet) (nsrest : List RecordSet) (soarec : RecordSet)
        (soarest : List RecordSet) (soa0 : String) (soatail : List String)
        (ttlstr em : String) (tz : Zone),
        recordsets sz.sets (normalize_zone z0) "NS" = nsrec :: nsrest
        ∧ recordsets sz.sets (normalize_zone z0) "SOA" = soarec :: soarest
        ∧ soarec.records = soa0 :: soatail
        ∧ (py_split_space soa0).get? 4 = some ttlstr
        ∧ prov.createZone (normalize_zone z0) ttlstr em sz.description = some tz
        ∧ sync_zone_rest sz.sets nsrec.records prov remove tz true d2 (normalize_zone z0)
            = some r := by
  simp only [sync_zone] at h
  split at h
  · exact absurd h (by simp)
  · split at h
    · rename_i heq
      rw [hsz] at heq
      exact absurd heq (by simp)
    · rename_i szone heq
      rw [hsz] at heq
      simp only [Option.some.injEq] at heq
      subst heq
      split at h
      · rename_i hns0
        exact absurd hns0 hns
      · rename_i nsrec nsrest hns0
        split at h
        · rename_i hsoa0
          exact absurd hsoa0 hsoa
        · rename_i soarec soarest hsoa0
          split at h
          · exact absurd h (by simp)
          · rename_i soa0 soatail hrec0
            split at h
            · rename_i tzz htz0
              rw [htz] at htz0
              exact absurd htz0 (by simp)
            · split at h
              · exact absurd h (by simp)
              · rename_i ttlstr hget
                split at h
                · left
                  simp only [Option.some.injEq] at h
                  exact h.symm
                · rename_i tz hcz
                  exact Or.inr ⟨nsrec, nsrest, soarec, soarest, soa0, soatail, ttlstr, _, tz,
                    hns0, hsoa0, hrec0, hget, hcz, h⟩

/-! ## Claim C4 -/

theorem sync_zone_no_remove {d1 d2 : Cloud} {prov : Provider} {z0 : String}
    {mail : Option String} {r : SyncResult}
    (h : sync_zone d1 d2 prov z0 mail false = some r) :
    r.deleted = 0 ∧ ∀ t, Mutation.delete_recordset t ∉ r.calls := by
  rcases sync_zone_cases d1 d2 prov z0 mail false r h with herr | hrest
  · subst herr
    exact ⟨rfl, by intro t ht; simp [err_result] at ht⟩
  · obtain ⟨sz, tz, zc, d2', nsrec, nsrest, _, _, _, hr⟩ := hrest
    obtain ⟨tns, trest, st1, st2, _, hfwd, hbwd, _, hcalls, _, _, hdel, _, _, _, _⟩ :=
      sync_zone_rest_inv hr
    rw [if_neg (by simp)] at hbwd
    simp only [Option.some.injEq] at hbwd
    subst hbwd
    obtain ⟨n1, hc1, hp1, _, _, _, hd1⟩ := forward_pass_bk _ _ prov _ _ _ hfwd
    simp only [List.nil_append] at hc1
    constructor
    · rw [hdel, hd1]
    · intro t ht
      rw [hcalls, hc1] at ht
      have := (hp1 _ ht).1
      simp [mut_is_delete] at this

theorem main_loop_no_delete (d1 : Cloud) (prov : Provider) (mail : Option String) :
    ∀ (zones : List String) (acc R : RunResult),
      main_loop d1 prov mail false acc zones = some R →
      R.norecdelete = acc.norecdelete := by
  intro zones
  induction zones with
  | nil =>
    intro acc R h
    simp only [main_loop, Option.some.injEq] at h
    subst h
    rfl
  | cons z rest ih =>
    intro acc R h
    simp only [main_loop] at h
    cases hs : sync_zone d1 acc.cloud2 prov z mail false with
    | none => rw [hs] at h; cases h
    | some r =>
      rw [hs] at h
      have hr := ih _ _ h
      simp only at hr
      rw [hr, (sync_zone_no_remove hs).1]
      omega

/-- C4: (i) with remove-extras disabled, `sync_zone` never deletes — its
delete counter is 0 and no `delete_recordset` call appears among its
calls; (ii) with remove-extras enabled, a target record set occurring once
in the target zone and having no (name, type) source match receives
exactly one `delete_recordset` call; (iii) a whole run with remove-extras
disabled keeps the global deleted-records counter at 0. -/
theorem c4_remove_extras :
    (∀ (d1 d2 : Cloud) (prov : Provider) (z0 : String) (mail : Option String)
       (r : SyncResult),
       sync_zone d1 d2 prov z0 mail false = some r →
       r.deleted = 0 ∧ ∀ t, Mutation.delete_recordset t ∉ r.calls)
    ∧ (∀ (d1 d2 : Cloud) (prov : Provider) (z0 : String) (mail : Option String)
         (sz tz : Zone) (r : SyncResult) (t : RecordSet),
       find_zone d1 (normalize_zone z0) = some sz →
       find_zone d2 (normalize_zone z0) = some tz →
       recordsets sz.sets (normalize_zone z0) "NS" ≠ [] →
       recordsets sz.sets (normalize_zone z0) "SOA" ≠ [] →
       sync_zone d1 d2 prov z0 mail true = some r →
       recordsets sz.sets t.name t.type = [] →
       tz.sets.countP (fun x => x == t) = 1 →
       r.calls.countP (fun m => m == Mutation.delete_recordset t) = 1)
    ∧ (∀ (d1 d2 : Cloud) (prov : Provider) (zones : List String) (mail : Option String)
         (R : RunResult),
       main_run d1 d2 prov zones mail false = some R → R.norecdelete = 0) := by
  refine ⟨?_, ?_, ?_⟩
  · intro d1 d2 prov z0 mail r h
    exact sync_zone_no_remove h
  · intro d1 d2 prov z0 mail sz tz r t hsz htz hns hsoa h hmiss hcount
    obtain ⟨nsrec, nsrest, _, _, _, _, hns0, _, _, hr⟩ := sync_zone_inv_found hsz htz hns hsoa h
    obtain ⟨tns, trest, st1, st2, _, hfwd, hbwd, _, hcalls, _, _, _, _, _, _, _⟩ :=
      sync_zone_rest_inv hr
    rw [if_pos rfl] at hbwd
    have hbc := backward_pass_count sz.sets prov t hmiss tz.sets st1 st2 hbwd
    obtain ⟨n1, hc1, hp1, _, _, _, _⟩ := forward_pass_bk _ _ prov _ _ _ hfwd
    simp only [List.nil_append] at hc1
    have hzero : st1.calls.countP (fun m => m == Mutation.delete_recordset t) = 0 := by
      rw [hc1, List.countP_eq_zero]
      intro m hm
      have hnd := (hp1 m hm).1
      intro habs
      rw [beq_iff_eq] at habs
      subst habs
      simp [mut_is_delete] at hnd
    rw [hcalls, hbc, hzero, hcount]
  · intro d1 d2 prov zones mail R h
    have := main_loop_no_delete d1 prov mail zones (init_run d2) R h
    simpa [init_run] using this

/-- Witness for C4 at concrete runs: the no-remove run issues no delete
and counts none; the remove run deletes the stray record exactly once;
the no-remove zone loop keeps the global delete counter at 0. -/
theorem c4_witness :
    (refRunNoRem.deleted = 0 ∧ ∀ t, Mutation.delete_recordset t ∉ refRunNoRem.calls)
    ∧ refRunBare.calls.countP (fun m => m == Mutation.delete_recordset subNS_dst) = 1
    ∧ fatalRunR.norecdelete = 0 :=
  ⟨c4_remove_extras.1 srcCloud dstCloud okProv "z." none refRunNoRem (by decide),
   c4_remove_extras.2.1 srcCloudBare dstCloud okProv "z." none
     ⟨"z.", "adm@z", "", [apexNS_src, apexSOA_src]⟩
     ⟨"z.", "adm@z", "", [apexNS_dst, apexSOA_dst, subNS_dst]⟩
     refRunBare subNS_dst (by decide) (by decide) (by decide) (by decide) (by decide)
     (by decide) (by decide),
   c4_remove_extras.2.2 srcCloudFatal ⟨[]⟩ okProv
     ["missing.", "nons.", "nosoa.", "nocreate."] none fatalRunR (by decide)⟩

/-! ## Claim C9 -/

/-- C9: over a completed `sync_zone` run of an existing zone pair, the
zone's error count equals the number of issued calls the provider
rejected, and each success counter equals the number of accepted calls of
its kind — so a failed call is counted as exactly one error, does not
bump its success counter, and does not stop the remaining record sets
from being processed. -/
theorem c9_partial_failure_accounting (d1 d2 : Cloud) (prov : Provider) (z0 : String)
    (mail : Option String) (remove : Bool) (sz tz : Zone) (r : SyncResult)
    (hsz : find_zone d1 (normalize_zone z0) = some sz)
    (htz : find_zone d2 (normalize_zone z0) = some tz)
    (hns : recordsets sz.sets (normalize_zone z0) "NS" ≠ [])
    (hsoa : recordsets sz.sets (normalize_zone z0) "SOA" ≠ [])
    (h : sync_zone d1 d2 prov z0 mail remove = some r) :
    r.errs = r.calls.countP (fun m => !prov.mutOk m)
    ∧ r.created = r.calls.countP (fun m => mut_is_create m && prov.mutOk m)
    ∧ r.changed = r.calls.countP (fun m => mut_is_update m && prov.mutOk m)
    ∧ r.deleted = r.calls.countP (fun m => mut_is_delete m && prov.mutOk m) := by
  obtain ⟨nsrec, nsrest, _, _, _, _, hns0, _, _, hr⟩ := sync_zone_inv_found hsz htz hns hsoa h
  obtain ⟨tns, trest, st1, st2, _, hfwd, hbwd, herr, hcalls, hcre, hchg, hdel, _, _, _, _⟩ :=
    sync_zone_rest_inv hr
  obtain ⟨n1, hc1, hp1, he1, hcr1, hch1, hd1⟩ := forward_pass_bk _ _ prov _ _ _ hfwd
  simp only [List.nil_append] at hc1
  have he1' : st1.errs = n1.countP (fun m => !prov.mutOk m) := by simpa using he1
  have hcr1' : st1.created = n1.countP (fun m => mut_is_create m && prov.mutOk m) := by
    simpa using hcr1
  have hch1' : st1.changed = n1.countP (fun m => mut_is_update m && prov.mutOk m) := by
    simpa using hch1
  have hd1' : st1.deleted = 0 := by simpa using hd1
  have hn1del : ∀ p : Mutation → Bool,
      n1.countP (fun m => mut_is_delete m && p m) = 0 := by
    intro p
    rw [List.countP_eq_zero]
    intro m hm
    simp [(hp1 m hm).1]
  cases remove with
  | false =>
    rw [if_neg (by simp)] at hbwd
    simp only [Option.some.injEq] at hbwd
    subst hbwd
    refine ⟨?_, ?_, ?_, ?_⟩
    · rw [herr, hcalls, hc1, he1']
    · rw [hcre, hcalls, hc1, hcr1']
    · rw [hchg, hcalls, hc1, hch1']
    · rw [hdel, hcalls, hc1, hd1', hn1del]
  | true =>
    rw [if_pos rfl] at hbwd
    obtain ⟨n2, hc2, hp2, he2, hcr2, hch2, hd2⟩ := backward_pass_bk _ prov _ _ _ hbwd
    have hcalls2 : st2.calls = n1 ++ n2 := by rw [hc2, hc1]
    have hn2 : ∀ m ∈ n2, mut_is_delete m = true ∧ mut_is_create m = false
        ∧ mut_is_update m = false := by
      intro m hm
      obtain ⟨t, _, hmt, _⟩ := hp2 m hm
      subst hmt
      exact ⟨rfl, rfl, rfl⟩
    refine ⟨?_, ?_, ?_, ?_⟩
    · rw [herr, hcalls, hcalls2, List.countP_append, he2, he1']
    · rw [hcre, hcalls, hcalls2, List.countP_append, hcr2, hcr1']
      have : n2.countP (fun m => mut_is_create m && prov.mutOk m) = 0 := by
        rw [List.countP_eq_zero]
        intro m hm
        simp [(hn2 m hm).2.1]
      omega
    · rw [hchg, hcalls, hcalls2, List.countP_append, hch2, hch1']
      have : n2.countP (fun m => mut_is_update m && prov.mutOk m) = 0 := by
        rw [List.countP_eq_zero]
        intro m hm
        simp [(hn2 m hm).2.2]
      omega
    · rw [hdel, hcalls, hcalls2, List.countP_append, hd2, hd1', hn1del]
      have : n2.countP (fun m => mut_is_delete m && prov.mutOk m)
          = n2.countP (fun m => prov.mutOk m) := by
        apply List.countP_congr
        intro m hm
        simp [(hn2 m hm).1]
      omega

/-- Witness for C9: on the all-calls-fail provider, the reference run
issues two calls, counts two errors, and leaves every success counter at
0. -/
theorem c9_witness :
    refRunFail.errs = refRunFail.calls.countP (fun m => !failProv.mutOk m)
    ∧ refRunFail.created
        = refRunFail.calls.countP (fun m => mut_is_create m && failProv.mutOk m)
    ∧ refRunFail.changed
        = refRunFail.calls.countP (fun m => mut_is_update m && failProv.mutOk m)
    ∧ refRunFail.deleted
        = refRunFail.calls.countP (fun m => mut_is_delete m && failProv.mutOk m) :=
  c9_partial_failure_accounting srcCloud dstCloud failProv "z." none true
    ⟨"z.", "adm@z", "", [apexNS_src, apexSOA_src, aRec]⟩
    ⟨"z.", "adm@z", "", [apexNS_dst, apexSOA_dst, subNS_dst]⟩
    refRunFail (by decide) (by decide) (by decide) (by decide) (by decide)

/-! ## Zone-loop lemmas -/

theorem main_loop_nodom (d1 : Cloud) (prov : Provider) (mail : Option String)
    (remove : Bool) :
    ∀ (zones : List String) (acc R : RunResult),
      main_loop d1 prov mail remove acc zones = some R →
      R.nodom = acc.nodom + zones.length := by
  intro zones
  induction zones with
  | nil =>
    intro acc R h
    unfold main_loop at h
    simp only [Option.some.injEq] at h
    rw [← h]
    simp
  | cons z rest ih =>
    intro acc R h
    unfold main_loop at h
    cases hs : sync_zone d1 acc.cloud2 prov z mail remove with
    | none => rw [hs] at h; cases h
    | some r =>
      rw [hs] at h
      have hr := ih _ _ h
      simp only at hr
      rw [hr]
      simp [List.length_cons]
      omega

/-! ## Claim C10 -/

/-- C10: the `nodom` ("domains processed") counter increments exactly once
per requested zone name, whatever the per-zone outcome was, so after a
completed run it equals the number of zones attempted. -/
theorem c10_nodom_counts_attempted (d1 d2 : Cloud) (prov : Provider)
    (zones : List String) (mail : Option String) (remove : Bool) (R : RunResult)
    (h : main_run d1 d2 prov zones mail remove = some R) : R.nodom = zones.length := by
  have hm := main_loop_nodom d1 prov mail remove zones (init_run d2) R h
  simpa [init_run] using hm

/-- Witness for C10: four zones, each ending in a per-zone fatal error,
still count four processed domains. -/
theorem c10_witness :
    main_run srcCloudFatal ⟨[]⟩ okProv ["missing.", "nons.", "nosoa.", "nocreate."] none false
      = some fatalRunR
    ∧ fatalRunR.nodom = 4 :=
  ⟨by decide,
   c10_nodom_counts_attempted srcCloudFatal ⟨[]⟩ okProv
     ["missing.", "nons.", "nosoa.", "nocreate."] none false fatalRunR (by decide)⟩

/-! ## Claim C5 -/

/-- C5 (code bug): on a run with one accumulated error, `main`'s return
value is 1, but the module-level call site discards it, so the process
exit status is 0 — contradicting "exit code equals the total error
count". -/
theorem c5_exit_code_bug :
    (main_run ⟨[]⟩ ⟨[]⟩ okProv ["z."] none false).map RunResult.errs = some 1
    ∧ script_exit_code ⟨[]⟩ ⟨[]⟩ okProv ["z."] none false = 0 :=
  ⟨rfl, rfl⟩

/-! ## Claim C6 -/

/-- C6 counterexample: on a duplicated (name, type) match the lookup does
not proceed with an arbitrary match — the failed `assert` aborts
(`Except.error ()`), falsifying "proceeds using an arbitrary one of the
matches rather than aborting". -/
theorem c6_multi_match_claim_false :
    find_record [aRec, aRec] aRec = Except.error () := rfl

/-- C6 as amended: when more than one record set matches a (name, type)
lookup, `find_record` reports the inconsistency and then aborts the run
through the failed assertion, instead of proceeding. -/
theorem c6_multi_match_aborts (sets : List RecordSet) (rec : RecordSet)
    (h : 2 ≤ (recordsets sets rec.name rec.type).length) :
    find_record sets rec = Except.error () := by
  unfold find_record
  cases hc : recordsets sets rec.name rec.type with
  | nil => rw [hc] at h; simp at h
  | cons a l =>
    cases l with
    | nil => rw [hc] at h; simp at h
    | cons b l' => rfl

/-- Witness for the amended C6 at a concrete duplicated record set. -/
theorem c6_witness :
    2 ≤ (recordsets [aRec, aRec] aRec.name aRec.type).length
    ∧ find_record [aRec, aRec] aRec = Except.error () :=
  ⟨by decide, c6_multi_match_aborts [aRec, aRec] aRec (by decide)⟩

/-! ## Claim C7 -/

/-- C7 counterexample: a target zone with no apex NS record set does not
produce a per-zone error with the run continuing — the record-set lookup
at line 165 raises an uncaught `IndexError` and the whole run crashes
(`none`), falsifying the target-zone half of the claim. -/
theorem c7_target_apex_claim_false :
    sync_zone srcCloudBare dstCloudNoNS okProv "z." none false = none := rfl

/-- C7 as amended: for the SOURCE zone the claim holds — a missing apex NS
or apex SOA record set makes `sync_zone` return exactly one error with no
record operation attempted and the zone loop continues (the return value
is `some`, not a crash). -/
theorem c7_source_apex_fatal (d1 d2 : Cloud) (prov : Provider) (z0 : String)
    (mail : Option String) (remove : Bool) (sz : Zone)
    (h0 : z0.data.isEmpty = false)
    (hsz : find_zone d1 (normalize_zone z0) = some sz)
    (hmiss : recordsets sz.sets (normalize_zone z0) "NS" = []
      ∨ recordsets sz.sets (normalize_zone z0) "SOA" = []) :
    sync_zone d1 d2 prov z0 mail remove = some (err_result d2) := by
  unfold sync_zone
  rw [if_neg (by simp [h0])]
  rcases hmiss with hns | hsoa
  · simp only [hsz, hns]
  · cases hns : recordsets sz.sets (normalize_zone z0) "NS" with
    | nil => simp only [hsz, hns]
    | cons a l => simp only [hsz, hns, hsoa]

/-- Witness for the amended C7: a source zone with no apex NS record set
yields one error and an untouched target cloud. -/
theorem c7_witness :
    ("nons.").data.isEmpty = false
    ∧ sync_zone srcCloudFatal ⟨[]⟩ okProv "nons." none false = some (err_result ⟨[]⟩) :=
  ⟨rfl,
   c7_source_apex_fatal srcCloudFatal ⟨[]⟩ okProv "nons." none false
     ⟨"nons.", "a@b", "", [⟨"nons.", "SOA", 300, ["ns. mail. 1 2 300"], ""⟩]⟩
     rfl rfl (Or.inl rfl)⟩

/-! ## Claim C1 -/

/-- C1: a source record set that reaches the generic logic is created on
the target (one `create_recordset` call with its fields) when no
(name, type) match exists, updated (one `update_recordset` call) when the
match differs in ttl, values or description, and left alone with only the
`nochg` counter bumped when the match is identical. -/
theorem c1_generic_create_update_nochange (srcns dstns : List String) (prov : Provider)
    (st : SyncState) (sset : RecordSet)
    (hgen : reaches_generic srcns dstns sset = true) :
    (recordsets st.target sset.name sset.type = [] →
      ∃ st', forward_step srcns dstns prov st sset = some st'
        ∧ st'.calls = st.calls ++
            [Mutation.create_recordset sset.name sset.type sset.ttl sset.records sset.description])
    ∧ (∀ tset, recordsets st.target sset.name sset.type = [tset] →
        (tset.ttl != sset.ttl || tset.records != sset.records
          || tset.description != sset.description) = true →
        ∃ st', forward_step srcns dstns prov st sset = some st'
          ∧ st'.calls = st.calls ++
              [Mutation.update_recordset tset sset.name sset.type sset.ttl sset.records sset.description])
    ∧ (∀ tset, recordsets st.target sset.name sset.type = [tset] →
        tset.ttl = sset.ttl → tset.records = sset.records →
        tset.description = sset.description →
        forward_step srcns dstns prov st sset = some { st with nochg := st.nochg + 1 }) := by
  unfold reaches_generic at hgen
  rw [Bool.and_eq_true, Bool.not_eq_true', Bool.not_eq_true'] at hgen
  refine ⟨?_, ?_, ?_⟩
  · intro hfil
    unfold forward_step
    rw [if_neg (by simp [hgen.1]), if_neg (by simp [hgen.2])]
    simp only [find_record_of_nil hfil]
    by_cases hok : prov.mutOk
        (Mutation.create_recordset sset.name sset.type sset.ttl sset.records sset.description) = true
    · exact ⟨_, by rw [if_pos hok], rfl⟩
    · exact ⟨_, by rw [if_neg hok], rfl⟩
  · intro tset hfil hdiff
    unfold forward_step
    rw [if_neg (by simp [hgen.1]), if_neg (by simp [hgen.2])]
    simp only [find_record_of_single hfil]
    rw [if_pos hdiff]
    by_cases hok : prov.mutOk
        (Mutation.update_recordset tset sset.name sset.type sset.ttl sset.records sset.description) = true
    · exact ⟨_, by rw [if_pos hok], rfl⟩
    · exact ⟨_, by rw [if_neg hok], rfl⟩
  · intro tset hfil h1 h2 h3
    unfold forward_step
    rw [if_neg (by simp [hgen.1]), if_neg (by simp [hgen.2])]
    simp only [find_record_of_single hfil]
    rw [if_neg (by simp [h1, h2, h3])]

/-- Witness for C1: the A record with no target match triggers exactly one
create call carrying its fields. -/
theorem c1_witness :
    reaches_generic ["ns1.src."] ["ns1.dst."] aRec = true
    ∧ ∃ st', forward_step ["ns1.src."] ["ns1.dst."] okProv stEmpty aRec = some st'
        ∧ st'.calls = stEmpty.calls ++
            [Mutation.create_recordset "www.z." "A" 120 ["1.2.3.4"] "web"] :=
  ⟨by decide,
   (c1_generic_create_update_nochange ["ns1.src."] ["ns1.dst."] okProv stEmpty aRec
     (by decide)).1 rfl⟩

/-! ## Claim C2 -/

/-- C2 counterexample: with remove-extras enabled, the backward pass DOES
issue a delete for the target NS record set `sub.z.` whose values equal
the target's own apex NS values but which has no (name, type) match in the
source — falsifying "never issues a create, update, or delete for it". -/
theorem c2_ns_skip_claim_false :
    (sync_zone srcCloudBare dstCloud okProv "z." none true).map SyncResult.calls
      = some [Mutation.delete_recordset subNS_dst] := rfl

/-- C2 as amended: in the FORWARD pass an NS record set whose values match
either zone's apex NS values is skipped with no call issued; but the
backward pass has no NS special case, so a target record set without a
(name, type) source match gets a delete call even if it is such an NS
set. -/
theorem c2_ns_skip_amended (srcns dstns : List String) (prov : Provider)
    (st : SyncState) (s : RecordSet) (ssets : List RecordSet) (t : RecordSet)
    (hns : s.type = "NS")
    (heq : set_equal s.records srcns = true ∨ set_equal s.records dstns = true)
    (hmiss : recordsets ssets t.name t.type = []) :
    forward_step srcns dstns prov st s = some { st with skipped := st.skipped + 1 }
    ∧ ∃ st', backward_step ssets prov st t = some st'
        ∧ st'.calls = st.calls ++ [Mutation.delete_recordset t] := by
  constructor
  · have hcond : (s.type == "NS"
        && (set_equal s.records srcns || set_equal s.records dstns)) = true := by
      rw [hns]
      rcases heq with h | h <;> simp [h]
    unfold forward_step
    rw [if_pos hcond]
  · unfold backward_step
    rw [find_record_of_nil hmiss]
    by_cases hok : prov.mutOk (Mutation.delete_recordset t) = true
    · exact ⟨_, by rw [if_pos hok], rfl⟩
    · exact ⟨_, by rw [if_neg hok], rfl⟩

/-- Witness for the amended C2 at the concrete stray NS set. -/
theorem c2_witness :
    subNS_dst.type = "NS"
    ∧ set_equal subNS_dst.records apexNS_dst.records = true
    ∧ recordsets [apexNS_src, apexSOA_src] subNS_dst.name subNS_dst.type = []
    ∧ (forward_step apexNS_src.records apexNS_dst.records okProv stEmpty subNS_dst
        = some { stEmpty with skipped := stEmpty.skipped + 1 }
      ∧ ∃ st', backward_step [apexNS_src, apexSOA_src] okProv stEmpty subNS_dst = some st'
          ∧ st'.calls = stEmpty.calls ++ [Mutation.delete_recordset subNS_dst]) :=
  ⟨rfl, by decide, by decide,
   c2_ns_skip_amended apexNS_src.records apexNS_dst.records okProv stEmpty subNS_dst
     [apexNS_src, apexSOA_src] subNS_dst rfl (Or.inr (by decide)) (by decide)⟩

/-! ## Claim C8: filter algebra -/

theorem recordsets_append (l1 l2 : List RecordSet) (n t : String) :
    recordsets (l1 ++ l2) n t = recordsets l1 n t ++ recordsets l2 n t := by
  simp [recordsets, List.filter_append]

theorem recordsets_pred_false {a : RecordSet} {n t : String}
    (hne : ¬(a.name = n ∧ a.type = t)) : (a.name == n && a.type == t) = false := by
  by_contra habs
  rw [Bool.not_eq_false, Bool.and_eq_true, beq_iff_eq, beq_iff_eq] at habs
  exact hne habs

theorem recordsets_map_update {sets : List RecordSet} {told newR : RecordSet}
    (hp : newR.name = told.name ∧ newR.type = told.type) (n t : String)
    (hne : ¬(told.name = n ∧ told.type = t)) :
    recordsets (sets.map (fun r => if r = told then newR else r)) n t
      = recordsets sets n t := by
  induction sets with
  | nil => rfl
  | cons a l ih =>
    simp only [List.map_cons]
    unfold recordsets at *
    rw [List.filter_cons, List.filter_cons]
    by_cases ha : a = told
    · rw [if_pos ha]
      have hpa : (a.name == n && a.type == t) = false := by
        rw [ha]; exact recordsets_pred_false hne
      have hpnew : (newR.name == n && newR.type == t) = false := by
        rw [hp.1, hp.2]; exact recordsets_pred_false hne
      simp only [hpa, hpnew, Bool.false_eq_true, if_false]
      exact ih
    · rw [if_neg ha]
      by_cases hpa : (a.name == n && a.type == t) = true
      · simp only [hpa, if_true]
        rw [ih]
      · simp only [Bool.not_eq_true] at hpa
        simp only [hpa, Bool.false_eq_true, if_false]
        exact ih

theorem recordsets_map_update_at {sets : List RecordSet} {told newR : RecordSet}
    {n t : String}
    (hfa : recordsets sets n t = [told])
    (hnew : newR.name = n ∧ newR.type = t) :
    recordsets (sets.map (fun r => if r = told then newR else r)) n t = [newR] := by
  have hold : told.name = n ∧ told.type = t := by
    have : told ∈ recordsets sets n t := by rw [hfa]; exact List.mem_singleton.mpr rfl
    exact (mem_recordsets this).2
  have hpold : (told.name == n && told.type == t) = true := by
    rw [hold.1, hold.2]; simp
  have hpnew : (newR.name == n && newR.type == t) = true := by
    rw [hnew.1, hnew.2]; simp
  induction sets with
  | nil => simp [recordsets] at hfa
  | cons a l ih =>
    unfold recordsets at hfa ⊢
    rw [List.filter_cons] at hfa
    simp only [List.map_cons]
    rw [List.filter_cons]
    by_cases hpa : (a.name == n && a.type == t) = true
    · rw [if_pos hpa] at hfa
      have ha : a = told ∧ l.filter (fun r => r.name == n && r.type == t) = [] := by
        have := List.cons.injEq a (l.filter _) told [] ▸ hfa
        exact ⟨by injection hfa, by injection hfa⟩
      obtain ⟨ha1, ha2⟩ := ha
      subst ha1
      rw [if_pos rfl]
      have hmapid : l.map (fun r => if r = a then newR else r) = l := by
        have hcongr : ∀ r ∈ l, (if r = a then newR else r) = id r := by
          intro r hr
          simp only [id]
          rw [if_neg]
          intro hra
          subst hra
          have : r ∈ l.filter (fun x => x.name == n && x.type == t) :=
            List.mem_filter.mpr ⟨hr, hpa⟩
          rw [ha2] at this
          exact absurd this (List.not_mem_nil r)
        rw [List.map_congr_left hcongr, List.map_id]
      rw [hmapid, if_pos hpnew, ha2]
    · rw [if_neg hpa] at hfa
      have ha : a ≠ told := by
        intro hra
        rw [hra] at hpa
        exact hpa hpold
      rw [if_neg ha, if_neg hpa]
      exact ih hfa

theorem filter_ne_filter (told : RecordSet) (p : RecordSet → Bool)
    (hp : p told = false) :
    ∀ l : List RecordSet, (l.filter (fun r => r ≠ told)).filter p = l.filter p := by
  intro l
  rw [List.filter_filter]
  apply List.filter_congr
  intro a ha
  by_cases hpa : p a = true
  · have hne : a ≠ told := by
      intro hh
      subst hh
      rw [hp] at hpa
      cases hpa
    simp [hpa, hne]
  · simp only [Bool.not_eq_true] at hpa
    simp [hpa]

theorem recordsets_filter_ne {sets : List RecordSet} {told : RecordSet} {n t : String}
    (hne : ¬(told.name = n ∧ told.type = t)) :
    recordsets (sets.filter (fun r => r ≠ told)) n t = recordsets sets n t := by
  unfold recordsets
  exact filter_ne_filter told _ (recordsets_pred_false hne) sets

theorem find?_update (zone : String) (tz z' : Zone) (hname : z'.name = tz.name) :
    ∀ l : List Zone, l.find? (fun z => z.name == zone) = some tz →
      (l.map (fun w => if w.name == z'.name then z' else w)).find?
          (fun z => z.name == zone) = some z' := by
  intro l
  induction l with
  | nil => intro h; simp at h
  | cons a l ih =>
    intro h
    rw [List.find?_cons] at h
    simp only [List.map_cons]
    rw [List.find?_cons]
    by_cases ha : (a.name == zone) = true
    · rw [ha] at h
      simp only [Option.some.injEq] at h
      subst h
      have haz : (a.name == z'.name) = true := by rw [hname]; simp
      rw [if_pos haz]
      have hz : (z'.name == zone) = true := by rw [hname]; exact ha
      simp only [hz]
    · rw [Bool.not_eq_true] at ha
      rw [ha] at h
      simp only at h
      by_cases haz : (a.name == z'.name) = true
      · rw [if_pos haz]
        have hz : (z'.name == zone) = false := by
          rw [beq_iff_eq] at haz
          rw [← haz]
          exact ha
        rw [hz]
        simp only
        exact ih h
      · rw [if_neg haz, ha]
        simp only
        exact ih h

theorem find_zone_update {c : Cloud} {zone : String} {tz : Zone} (z' : Zone)
    (h : find_zone c zone = some tz) (hname : z'.name = tz.name) :
    find_zone (update_zone c z') zone = some z' := by
  unfold find_zone update_zone at *
  exact find?_update zone tz z' hname c.zones h

theorem find?_append_none {p : Zone → Bool} (l2 : List Zone) :
    ∀ l1 : List Zone, l1.find? p = none → (l1 ++ l2).find? p = l2.find? p := by
  intro l1
  induction l1 with
  | nil => intro _; rfl
  | cons a l ih =>
    intro h
    rw [List.find?_cons] at h
    rw [List.cons_append, List.find?_cons]
    cases hpa : p a with
    | true => rw [hpa] at h; exact Option.noConfusion h
    | false => rw [hpa] at h; exact ih h

theorem find_zone_append {d2 : Cloud} {zone : String} {z' : Zone}
    (h : find_zone d2 zone = none) (hname : z'.name = zone) :
    find_zone ⟨d2.zones ++ [z']⟩ zone = some z' := by
  unfold find_zone at *
  rw [find?_append_none [z'] d2.zones h]
  rw [List.find?_cons]
  have hp : (z'.name == zone) = true := by rw [hname]; simp
  rw [hp]

/-! ## Claim C8: step-level facts -/

theorem forward_step_skip {srcns dstns : List String} {prov : Provider}
    {st : SyncState} {s : RecordSet}
    (hng : reaches_generic srcns dstns s = false) :
    forward_step srcns dstns prov st s = some { st with skipped := st.skipped + 1 } := by
  unfold forward_step
  by_cases h1 : (s.type == "NS"
      && (set_equal s.records srcns || set_equal s.records dstns)) = true
  · rw [if_pos h1]
  · rw [if_neg h1]
    rw [Bool.not_eq_true] at h1
    have h2 : (s.type == "SOA") = true := by
      unfold reaches_generic at hng
      rw [h1] at hng
      simpa using hng
    rw [if_pos h2]

theorem reaches_generic_guards {srcns dstns : List String} {s : RecordSet}
    (hg : reaches_generic srcns dstns s = true) :
    (s.type == "NS" && (set_equal s.records srcns || set_equal s.records dstns)) = false
    ∧ (s.type == "SOA") = false := by
  unfold reaches_generic at hg
  rw [Bool.and_eq_true, Bool.not_eq_true', Bool.not_eq_true'] at hg
  exact hg

theorem forward_step_errs_le {srcns dstns : List String} {prov : Provider}
    {st st' : SyncState} {s : RecordSet}
    (h : forward_step srcns dstns prov st s = some st') : st.errs ≤ st'.errs := by
  simp only [forward_step] at h
  split at h
  · simp only [Option.some.injEq] at h; subst h; exact Nat.le_refl _
  · split at h
    · simp only [Option.some.injEq] at h; subst h; exact Nat.le_refl _
    · split at h
      · exact absurd h (by simp)
      · split at h <;> (simp only [Option.some.injEq] at h; subst h) <;>
          first
          | exact Nat.le_refl _
          | exact Nat.le_succ _
      · split at h
        · split at h <;> (simp only [Option.some.injEq] at h; subst h) <;>
            first
            | exact Nat.le_refl _
            | exact Nat.le_succ _
        · simp only [Option.some.injEq] at h; subst h; exact Nat.le_refl _

theorem forward_step_preserve {srcns dstns : List String} {prov : Provider}
    {st st' : SyncState} {s : RecordSet}
    (h : forward_step srcns dstns prov st s = some st')
    {n t : String} (hne : ¬(s.name = n ∧ s.type = t)) :
    recordsets st'.target n t = recordsets st.target n t := by
  simp only [forward_step] at h
  split at h
  · simp only [Option.some.injEq] at h; subst h; rfl
  · split at h
    · simp only [Option.some.injEq] at h; subst h; rfl
    · split at h
      · exact absurd h (by simp)
      · split at h <;> (simp only [Option.some.injEq] at h; subst h)
        · simp only [apply_mutation]
          rw [recordsets_append]
          have hone : recordsets [(⟨s.name, s.type, s.ttl, s.records, s.description⟩ : RecordSet)] n t = [] := by
            unfold recordsets
            rw [List.filter_cons]
            rw [if_neg (by simp [recordsets_pred_false hne])]
            rfl
          rw [hone, List.append_nil]
        · rfl
      · rename_i tset hfind
        have hfa := find_record_some_inv hfind
        have hprops := mem_recordsets (hfa ▸ List.mem_singleton.mpr rfl)
        split at h
        · split at h <;> (simp only [Option.some.injEq] at h; subst h)
          · simp only [apply_mutation]
            apply recordsets_map_update
            · exact ⟨hprops.2.1.symm, hprops.2.2.symm⟩
            · rw [hprops.2.1, hprops.2.2]
              exact hne
          · rfl
        · simp only [Option.some.injEq] at h; subst h; rfl

theorem forward_step_establish {srcns dstns : List String} {prov : Provider}
    {st st' : SyncState} {s : RecordSet}
    (h : forward_step srcns dstns prov st s = some st')
    (herrs : st'.errs = st.errs)
    (hg : reaches_generic srcns dstns s = true) :
    recordsets st'.target s.name s.type = [s] := by
  obtain ⟨hg1, hg2⟩ := reaches_generic_guards hg
  simp only [forward_step] at h
  rw [if_neg (by simp [hg1]), if_neg (by simp [hg2])] at h
  split at h
  · exact absurd h (by simp)
  · rename_i hfind
    have hnil := find_record_none_inv hfind
    split at h <;> (simp only [Option.some.injEq] at h; subst h)
    · simp only [apply_mutation]
      rw [recordsets_append, hnil, List.nil_append]
      unfold recordsets
      rw [List.filter_cons]
      rw [if_pos (by simp)]
      rfl
    · simp at herrs
  · rename_i tset hfind
    have hfa := find_record_some_inv hfind
    have hprops := mem_recordsets (hfa ▸ List.mem_singleton.mpr rfl)
    split at h
    · split at h <;> (simp only [Option.some.injEq] at h; subst h)
      · simp only [apply_mutation]
        exact recordsets_map_update_at hfa ⟨rfl, rfl⟩
      · simp at herrs
    · rename_i hdiff
      simp only [Option.some.injEq] at h
      subst h
      rw [Bool.not_eq_true, Bool.or_eq_false_iff, Bool.or_eq_false_iff,
        bne_eq_false_iff_eq, bne_eq_false_iff_eq, bne_eq_false_iff_eq] at hdiff
      have hts : tset = s := by
        obtain ⟨_, hn, ht⟩ := hprops
        obtain ⟨⟨httl, hrec⟩, hdesc⟩ := hdiff
        cases tset
        cases s
        simp_all
      rw [show ({ st with nochg := st.nochg + 1 } : SyncState).target = st.target from rfl]
      rw [hfa, hts]

theorem forward_step_nodup {srcns dstns : List String} {prov : Provider}
    {st st' : SyncState} {s : RecordSet}
    (h : forward_step srcns dstns prov st s = some st')
    (hnd : pairsNodup st.target) : pairsNodup st'.target := by
  simp only [forward_step] at h
  split at h
  · simp only [Option.some.injEq] at h; subst h; exact hnd
  · split at h
    · simp only [Option.some.injEq] at h; subst h; exact hnd
    · split at h
      · exact absurd h (by simp)
      · rename_i hfind
        have hnil := find_record_none_inv hfind
        split at h <;> (simp only [Option.some.injEq] at h; subst h)
        · simp only [apply_mutation]
          unfold pairsNodup at *
          rw [List.map_append, List.nodup_append]
          refine ⟨hnd, by simp, ?_⟩
          intro p hp hp'
          simp only [List.map_cons, List.map_nil, List.mem_singleton] at hp'
          subst hp'
          rw [List.mem_map] at hp
          obtain ⟨r, hr, hpr⟩ := hp
          unfold pairNT at hpr
          have : r ∈ recordsets st.target s.name s.type := by
            apply List.mem_filter.mpr
            refine ⟨hr, ?_⟩
            have h1 : r.name = s.name := congrArg Prod.fst hpr
            have h2 : r.type = s.type := congrArg Prod.snd hpr
            rw [h1, h2]
            simp
          rw [hnil] at this
          exact absurd this (List.not_mem_nil r)
        · exact hnd
      · rename_i tset hfind
        have hfa := find_record_some_inv hfind
        have hprops := mem_recordsets (hfa ▸ List.mem_singleton.mpr rfl)
        split at h
        · split at h <;> (simp only [Option.some.injEq] at h; subst h)
          · simp only [apply_mutation]
            unfold pairsNodup at *
            rw [List.map_map]
            have hcongr : ∀ r ∈ st.target,
                (pairNT ∘ fun r => if r = tset then
                  (⟨s.name, s.type, s.ttl, s.records, s.description⟩ : RecordSet) else r) r
                  = pairNT r := by
              intro r hr
              simp only [Function.comp]
              by_cases hrt : r = tset
              · rw [if_pos hrt, hrt]
                unfold pairNT
                rw [hprops.2.1, hprops.2.2]
              · rw [if_neg hrt]
            rw [List.map_congr_left hcongr]
            exact hnd
          · exact hnd
        · simp only [Option.some.injEq] at h; subst h; exact hnd

theorem forward_step_provenance {srcns dstns : List String} {prov : Provider}
    {st st' : SyncState} {s : RecordSet}
    (h : forward_step srcns dstns prov st s = some st') :
    ∀ r' ∈ st'.target, r' ∈ st.target ∨ r' = s := by
  simp only [forward_step] at h
  split at h
  · simp only [Option.some.injEq] at h; subst h; exact fun r' hr' => Or.inl hr'
  · split at h
    · simp only [Option.some.injEq] at h; subst h; exact fun r' hr' => Or.inl hr'
    · split at h
      · exact absurd h (by simp)
      · split at h <;> (simp only [Option.some.injEq] at h; subst h)
        · intro r' hr'
          simp only [apply_mutation] at hr'
          rcases List.mem_append.mp hr' with hm | hm
          · exact Or.inl hm
          · simp only [List.mem_singleton] at hm
            exact Or.inr hm
        · exact fun r' hr' => Or.inl hr'
      · rename_i tset hfind
        split at h
        · split at h <;> (simp only [Option.some.injEq] at h; subst h)
          · intro r' hr'
            simp only [apply_mutation] at hr'
            rw [List.mem_map] at hr'
            obtain ⟨r, hr, hfr⟩ := hr'
            by_cases hrt : r = tset
            · rw [if_pos hrt] at hfr
              exact Or.inr hfr.symm
            · rw [if_neg hrt] at hfr
              exact Or.inl (hfr ▸ hr)
          · exact fun r' hr' => Or.inl hr'
        · simp only [Option.some.injEq] at h; subst h; exact fun r' hr' => Or.inl hr'

theorem forward_step_nochg {srcns dstns : List String} (prov : Provider)
    {st : SyncState} {s : RecordSet}
    (hg : reaches_generic srcns dstns s = true)
    (hfil : recordsets st.target s.name s.type = [s]) :
    forward_step srcns dstns prov st s = some { st with nochg := st.nochg + 1 } := by
  obtain ⟨hg1, hg2⟩ := reaches_generic_guards hg
  unfold forward_step
  rw [if_neg (by simp [hg1]), if_neg (by simp [hg2])]
  simp only [find_record_of_single hfil]
  rw [if_neg (by simp)]

theorem backward_step_errs_le {ssets : List RecordSet} {prov : Provider}
    {st st' : SyncState} {t : RecordSet}
    (h : backward_step ssets prov st t = some st') : st.errs ≤ st'.errs := by
  simp only [backward_step] at h
  split at h
  · exact absurd h (by simp)
  · simp only [Option.some.injEq] at h; subst h; exact Nat.le_refl _
  · split at h <;> (simp only [Option.some.injEq] at h; subst h) <;>
      first
      | exact Nat.le_refl _
      | exact Nat.le_succ _

theorem backward_step_target {ssets : List RecordSet} {prov : Provider}
    {st st' : SyncState} {t : RecordSet}
    (h : backward_step ssets prov st t = some st') :
    st'.target = st.target
    ∨ (recordsets ssets t.name t.type = []
        ∧ st'.target = st.target.filter (fun r => r ≠ t)) := by
  simp only [backward_step] at h
  split at h
  · exact absurd h (by simp)
  · simp only [Option.some.injEq] at h; subst h; exact Or.inl rfl
  · rename_i hfind
    have hnil := find_record_none_inv hfind
    split at h <;> (simp only [Option.some.injEq] at h; subst h)
    · exact Or.inr ⟨hnil, rfl⟩
    · exact Or.inl rfl

theorem backward_step_success_delete {ssets : List RecordSet} {prov : Provider}
    {st st' : SyncState} {t : RecordSet}
    (h : backward_step ssets prov st t = some st')
    (herrs : st'.errs = st.errs)
    (hmiss : recordsets ssets t.name t.type = []) :
    st'.target = st.target.filter (fun r => r ≠ t) := by
  simp only [backward_step, find_record_of_nil hmiss] at h
  split at h <;> (simp only [Option.some.injEq] at h; subst h)
  · rfl
  · simp at herrs

theorem backward_step_match {ssets : List RecordSet} (prov : Provider) (st : SyncState)
    {t : RecordSet}
    (hnodup : pairsNodup ssets)
    (hm : recordsets ssets t.name t.type ≠ []) :
    backward_step ssets prov st t = some st := by
  unfold backward_step
  rw [find_record_of_nodup t hnodup]
  cases hc : recordsets ssets t.name t.type with
  | nil => exact absurd hc hm
  | cons a l => rfl

/-! ## Claim C8: pass-level facts -/

theorem forward_pass_errs_le (srcns dstns : List String) (prov : Provider) :
    ∀ (L : List RecordSet) (st st' : SyncState),
      forward_pass srcns dstns prov st L = some st' → st.errs ≤ st'.errs := by
  intro L
  induction L with
  | nil =>
    intro st st' h
    simp only [forward_pass, Option.some.injEq] at h
    subst h
    exact Nat.le_refl _
  | cons s rest ih =>
    intro st st' h
    simp only [forward_pass] at h
    cases hs : forward_step srcns dstns prov st s with
    | none => rw [hs] at h; cases h
    | some st1 =>
      rw [hs] at h
      exact Nat.le_trans (forward_step_errs_le hs) (ih st1 st' h)

theorem forward_pass_nodup (srcns dstns : List String) (prov : Provider) :
    ∀ (L : List RecordSet) (st st' : SyncState),
      forward_pass srcns dstns prov st L = some st' →
      pairsNodup st.target → pairsNodup st'.target := by
  intro L
  induction L with
  | nil =>
    intro st st' h hnd
    simp only [forward_pass, Option.some.injEq] at h
    subst h
    exact hnd
  | cons s rest ih =>
    intro st st' h hnd
    simp only [forward_pass] at h
    cases hs : forward_step srcns dstns prov st s with
    | none => rw [hs] at h; cases h
    | some st1 =>
      rw [hs] at h
      exact ih st1 st' h (forward_step_nodup hs hnd)

theorem forward_pass_preserve {srcns dstns : List String} {prov : Provider}
    (n t : String) :
    ∀ (L : List RecordSet) (st st' : SyncState),
      (∀ s ∈ L, reaches_generic srcns dstns s = true → ¬(s.name = n ∧ s.type = t)) →
      forward_pass srcns dstns prov st L = some st' →
      recordsets st'.target n t = recordsets st.target n t := by
  intro L
  induction L with
  | nil =>
    intro st st' _ h
    simp only [forward_pass, Option.some.injEq] at h
    subst h
    rfl
  | cons s rest ih =>
    intro st st' hL h
    simp only [forward_pass] at h
    cases hs : forward_step srcns dstns prov st s with
    | none => rw [hs] at h; cases h
    | some st1 =>
      rw [hs] at h
      have hrest := ih st1 st' (fun s' hs' => hL s' (List.mem_cons_of_mem _ hs')) h
      rw [hrest]
      by_cases hg : reaches_generic srcns dstns s = true
      · exact forward_step_preserve hs (hL s (List.mem_cons_self _ _) hg)
      · rw [Bool.not_eq_true] at hg
        rw [forward_step_skip hg] at hs
        simp only [Option.some.injEq] at hs
        rw [← hs]

theorem forward_pass_establish {srcns dstns : List String} {prov : Provider} :
    ∀ (L : List RecordSet) (st st' : SyncState),
      (L.map pairNT).Nodup →
      forward_pass srcns dstns prov st L = some st' →
      st'.errs = st.errs →
      ∀ s ∈ L, reaches_generic srcns dstns s = true →
        recordsets st'.target s.name s.type = [s] := by
  intro L
  induction L with
  | nil =>
    intro st st' _ _ _ s hs
    exact absurd hs (List.not_mem_nil s)
  | cons s0 rest ih =>
    intro st st' hnd h herrs s hs hg
    simp only [forward_pass] at h
    cases hstep : forward_step srcns dstns prov st s0 with
    | none => rw [hstep] at h; cases h
    | some st1 =>
      rw [hstep] at h
      have h1 : st.errs ≤ st1.errs := forward_step_errs_le hstep
      have h2 : st1.errs ≤ st'.errs := forward_pass_errs_le srcns dstns prov rest st1 st' h
      have he1 : st1.errs = st.errs := by omega
      have he2 : st'.errs = st1.errs := by omega
      rw [List.map_cons, List.nodup_cons] at hnd
      rcases List.mem_cons.mp hs with hs0 | hmem
      · subst hs0
        have hfil1 := forward_step_establish hstep he1 hg
        have hpres := forward_pass_preserve s.name s.type rest st1 st' (by
          intro s' hs' hg' ⟨hn', ht'⟩
          apply hnd.1
          rw [List.mem_map]
          exact ⟨s', hs', by unfold pairNT; rw [hn', ht']⟩) h
        rw [hpres, hfil1]
      · exact ih st1 st' hnd.2 h he2 s hmem hg

theorem forward_pass_provenance (srcns dstns : List String) (prov : Provider) :
    ∀ (L : List RecordSet) (st st' : SyncState),
      forward_pass srcns dstns prov st L = some st' →
      ∀ r' ∈ st'.target, r' ∈ st.target ∨ r' ∈ L := by
  intro L
  induction L with
  | nil =>
    intro st st' h r' hr'
    simp only [forward_pass, Option.some.injEq] at h
    subst h
    exact Or.inl hr'
  | cons s rest ih =>
    intro st st' h r' hr'
    simp only [forward_pass] at h
    cases hstep : forward_step srcns dstns prov st s with
    | none => rw [hstep] at h; cases h
    | some st1 =>
      rw [hstep] at h
      rcases ih st1 st' h r' hr' with hm | hm
      · rcases forward_step_provenance hstep r' hm with hm' | hm'
        · exact Or.inl hm'
        · exact Or.inr (hm' ▸ List.mem_cons_self _ _)
      · exact Or.inr (List.mem_cons_of_mem _ hm)

theorem backward_pass_errs_le (ssets : List RecordSet) (prov : Provider) :
    ∀ (L : List RecordSet) (st st' : SyncState),
      backward_pass ssets prov st L = some st' → st.errs ≤ st'.errs := by
  intro L
  induction L with
  | nil =>
    intro st st' h
    simp only [backward_pass, Option.some.injEq] at h
    subst h
    exact Nat.le_refl _
  | cons t0 rest ih =>
    intro st st' h
    simp only [backward_pass] at h
    cases hs : backward_step ssets prov st t0 with
    | none => rw [hs] at h; cases h
    | some st1 =>
      rw [hs] at h
      exact Nat.le_trans (backward_step_errs_le hs) (ih st1 st' h)

theorem backward_pass_nodup (ssets : List RecordSet) (prov : Provider) :
    ∀ (L : List RecordSet) (st st' : SyncState),
      backward_pass ssets prov st L = some st' →
      pairsNodup st.target → pairsNodup st'.target := by
  intro L
  induction L with
  | nil =>
    intro st st' h hnd
    simp only [backward_pass, Option.some.injEq] at h
    subst h
    exact hnd
  | cons t0 rest ih =>
    intro st st' h hnd
    simp only [backward_pass] at h
    cases hs : backward_step ssets prov st t0 with
    | none => rw [hs] at h; cases h
    | some st1 =>
      rw [hs] at h
      refine ih st1 st' h ?_
      rcases backward_step_target hs with ht | ⟨_, ht⟩
      · rw [ht]; exact hnd
      · rw [ht]
        unfold pairsNodup at *
        exact ((List.filter_sublist _).map pairNT).nodup hnd

theorem backward_pass_preserve {ssets : List RecordSet} {prov : Provider}
    {n t : String} (hm : recordsets ssets n t ≠ []) :
    ∀ (L : List RecordSet) (st st' : SyncState),
      backward_pass ssets prov st L = some st' →
      recordsets st'.target n t = recordsets st.target n t := by
  intro L
  induction L with
  | nil =>
    intro st st' h
    simp only [backward_pass, Option.some.injEq] at h
    subst h
    rfl
  | cons t0 rest ih =>
    intro st st' h
    simp only [backward_pass] at h
    cases hs : backward_step ssets prov st t0 with
    | none => rw [hs] at h; cases h
    | some st1 =>
      rw [hs] at h
      rw [ih st1 st' h]
      rcases backward_step_target hs with ht | ⟨hmiss, ht⟩
      · rw [ht]
      · rw [ht]
        apply recordsets_filter_ne
        intro ⟨hn0, ht0⟩
        rw [hn0, ht0] at hmiss
        exact hm hmiss

theorem backward_pass_shrink (ssets : List RecordSet) (prov : Provider) :
    ∀ (L : List RecordSet) (st st' : SyncState),
      backward_pass ssets prov st L = some st' →
      ∀ r ∈ st'.target, r ∈ st.target := by
  intro L
  induction L with
  | nil =>
    intro st st' h r hr
    simp only [backward_pass, Option.some.injEq] at h
    subst h
    exact hr
  | cons t0 rest ih =>
    intro st st' h r hr
    simp only [backward_pass] at h
    cases hs : backward_step ssets prov st t0 with
    | none => rw [hs] at h; cases h
    | some st1 =>
      rw [hs] at h
      have hr1 := ih st1 st' h r hr
      rcases backward_step_target hs with ht | ⟨_, ht⟩
      · rw [ht] at hr1; exact hr1
      · rw [ht] at hr1
        exact (List.mem_filter.mp hr1).1

theorem backward_pass_gone {ssets : List RecordSet} {prov : Provider} :
    ∀ (L : List RecordSet) (st st' : SyncState),
      backward_pass ssets prov st L = some st' →
      st'.errs = st.errs →
      ∀ t ∈ L, recordsets ssets t.name t.type = [] → t ∉ st'.target := by
  intro L
  induction L with
  | nil =>
    intro st st' _ _ t ht
    exact absurd ht (List.not_mem_nil t)
  | cons t0 rest ih =>
    intro st st' h herrs t ht hmiss
    simp only [backward_pass] at h
    cases hstep : backward_step ssets prov st t0 with
    | none => rw [hstep] at h; cases h
    | some st1 =>
      rw [hstep] at h
      have h1 : st.errs ≤ st1.errs := backward_step_errs_le hstep
      have h2 : st1.errs ≤ st'.errs := backward_pass_errs_le ssets prov rest st1 st' h
      have he1 : st1.errs = st.errs := by omega
      have he2 : st'.errs = st1.errs := by omega
      rcases List.mem_cons.mp ht with ht0 | hmem
      · subst ht0
        have hdel := backward_step_success_delete hstep he1 hmiss
        intro habs
        have := backward_pass_shrink ssets prov rest st1 st' h t habs
        rw [hdel] at this
        have := (List.mem_filter.mp this).2
        simp at this
      · exact ih st1 st' h he2 t hmem hmiss

/-! ## Claim C8: the second run makes no changes -/

theorem run2_forward {srcns dstns : List String} (prov : Provider) :
    ∀ (L : List RecordSet) (st : SyncState),
      (∀ s ∈ L, reaches_generic srcns dstns s = true →
        recordsets st.target s.name s.type = [s]) →
      ∃ st', forward_pass srcns dstns prov st L = some st'
        ∧ st'.target = st.target ∧ st'.calls = st.calls ∧ st'.errs = st.errs
        ∧ st'.created = st.created ∧ st'.changed = st.changed
        ∧ st'.deleted = st.deleted := by
  intro L
  induction L with
  | nil =>
    intro st _
    exact ⟨st, rfl, rfl, rfl, rfl, rfl, rfl, rfl⟩
  | cons s rest ih =>
    intro st hAll
    by_cases hg : reaches_generic srcns dstns s = true
    · have hstep := forward_step_nochg prov hg (hAll s (List.mem_cons_self _ _) hg)
      obtain ⟨st', hpass, ht, hc, he, hcr, hch, hd⟩ :=
        ih { st with nochg := st.nochg + 1 }
          (fun s' hs' hg' => hAll s' (List.mem_cons_of_mem _ hs') hg')
      refine ⟨st', ?_, ht, hc, he, hcr, hch, hd⟩
      simp only [forward_pass, hstep]
      exact hpass
    · rw [Bool.not_eq_true] at hg
      have hstep := @forward_step_skip srcns dstns prov st s hg
      obtain ⟨st', hpass, ht, hc, he, hcr, hch, hd⟩ :=
        ih { st with skipped := st.skipped + 1 }
          (fun s' hs' hg' => hAll s' (List.mem_cons_of_mem _ hs') hg')
      refine ⟨st', ?_, ht, hc, he, hcr, hch, hd⟩
      simp only [forward_pass, hstep]
      exact hpass

theorem run2_backward {ssets : List RecordSet} (prov : Provider)
    (hnodup : pairsNodup ssets) :
    ∀ (L : List RecordSet) (st : SyncState),
      (∀ t ∈ L, recordsets ssets t.name t.type ≠ []) →
      backward_pass ssets prov st L = some st := by
  intro L
  induction L with
  | nil => intro st _; rfl
  | cons t0 rest ih =>
    intro st hAll
    simp only [backward_pass,
      backward_step_match prov st hnodup (hAll t0 (List.mem_cons_self _ _))]
    exact ih st (fun t ht => hAll t (List.mem_cons_of_mem _ ht))

/-! ## Claim C8: rebuilding the second run -/

theorem sync_zone_build {d1 d2 : Cloud} {prov : Provider} {z0 : String}
    {mail : Option String} {remove : Bool} {sz tz : Zone}
    {nsrec soarec : RecordSet} {nsrest soarest : List RecordSet}
    {soa0 : String} {soatail : List String}
    (h0 : z0.data.isEmpty = false)
    (hsz : find_zone d1 (normalize_zone z0) = some sz)
    (hns0 : recordsets sz.sets (normalize_zone z0) "NS" = nsrec :: nsrest)
    (hsoa0 : recordsets sz.sets (normalize_zone z0) "SOA" = soarec :: soarest)
    (hrec0 : soarec.records = soa0 :: soatail)
    (htz : find_zone d2 (normalize_zone z0) = some tz) :
    sync_zone d1 d2 prov z0 mail remove
      = sync_zone_rest sz.sets nsrec.records prov remove tz false d2 (normalize_zone z0) := by
  simp only [sync_zone]
  rw [if_neg (by simp [h0])]
  simp only [hsz, hns0, hsoa0, hrec0, htz]

theorem sync_zone_rest_build {ssets : List RecordSet} {srcns : List String}
    {prov : Provider} {remove : Bool} {tz : Zone} {zc : Bool} {d2 : Cloud}
    {zone : String} {tns : RecordSet} {trest : List RecordSet} {st1 st2 : SyncState}
    (htns : recordsets tz.sets zone "NS" = tns :: trest)
    (hfwd : forward_pass srcns tns.records prov
      { target := tz.sets, calls := [], errs := 0, skipped := 0,
        created := 0, changed := 0, nochg := 0, deleted := 0 } ssets = some st1)
    (hbwd : (if remove then backward_pass ssets prov st1 tz.sets else some st1) = some st2) :
    sync_zone_rest ssets srcns prov remove tz zc d2 zone
      = some { errs := st2.errs, domcreate := if zc then 1 else 0,
               skipped := st2.skipped, created := st2.created, changed := st2.changed,
               nochg := st2.nochg, deleted := st2.deleted, calls := st2.calls,
               cloud2After :=
                 if zc then { zones := d2.zones ++ [{ tz with sets := st2.target }] }
                 else update_zone d2 { tz with sets := st2.target } } := by
  simp only [sync_zone_rest, htns, hfwd, hbwd]

/-- Core of C8, covering both target-zone paths at once: given the
post-lookup run (`sync_zone_rest`) of a zone whose source apex sets were
found, with `zc`/`d2'` recording whether the target zone was freshly
created (then `d2'` held no zone of that name and the created zone
carries the requested name) or pre-existing (then `d2'`'s lookup finds
it), a zero-error run is followed by a second run that issues no call. -/
theorem c8_core {d1 : Cloud} {prov : Provider} {z0 : String}
    {mail : Option String} {remove : Bool} {sz tz : Zone} {zc : Bool}
    {d2' : Cloud} {r1 : SyncResult}
    {nsrec soarec : RecordSet} {nsrest soarest : List RecordSet}
    {soa0 : String} {soatail : List String}
    (h0 : z0.data.isEmpty = false)
    (hsz : find_zone d1 (normalize_zone z0) = some sz)
    (hsu : pairsNodup sz.sets)
    (hns0 : recordsets sz.sets (normalize_zone z0) "NS" = nsrec :: nsrest)
    (hsoa0 : recordsets sz.sets (normalize_zone z0) "SOA" = soarec :: soarest)
    (hrec0 : soarec.records = soa0 :: soatail)
    (hd2 : if zc then (find_zone d2' (normalize_zone z0) = none
              ∧ tz.name = normalize_zone z0)
           else find_zone d2' (normalize_zone z0) = some tz)
    (hrest : sync_zone_rest sz.sets nsrec.records prov remove tz zc d2'
        (normalize_zone z0) = some r1)
    (h1e : r1.errs = 0) :
    ∃ r2, sync_zone d1 r1.cloud2After prov z0 mail remove = some r2
      ∧ r2.calls = [] ∧ r2.created = 0 ∧ r2.changed = 0 ∧ r2.deleted = 0
      ∧ r2.errs = 0 ∧ r2.domcreate = 0 := by
  have hns : recordsets sz.sets (normalize_zone z0) "NS" ≠ [] := by
    rw [hns0]
    simp
  obtain ⟨tns, trest, st1, st2, htns0, hfwd, hbwd, herr, hcalls, hcre, hchg, hdel,
    hnochg, hskip, hdom, hcloud⟩ := sync_zone_rest_inv hrest
  have hst2e : st2.errs = 0 := by rw [← herr]; exact h1e
  have hst1e : st1.errs = 0 := by
    by_cases hrem : remove = true
    · rw [if_pos hrem] at hbwd
      have := backward_pass_errs_le sz.sets prov tz.sets st1 st2 hbwd
      omega
    · rw [if_neg hrem] at hbwd
      simp only [Option.some.injEq] at hbwd
      rw [hbwd]
      exact hst2e
  have hEst1 : ∀ s ∈ sz.sets, reaches_generic nsrec.records tns.records s = true →
      recordsets st1.target s.name s.type = [s] :=
    forward_pass_establish sz.sets _ st1 hsu hfwd hst1e
  have hNS1 : recordsets st1.target (normalize_zone z0) "NS" = tns :: trest := by
    rw [forward_pass_preserve (normalize_zone z0) "NS" sz.sets _ st1 ?_ hfwd]
    · exact htns0
    · intro s' hs' hg' hpair
      obtain ⟨hn', ht'⟩ := hpair
      have hmem : s' ∈ recordsets sz.sets (normalize_zone z0) "NS" := by
        apply List.mem_filter.mpr
        exact ⟨hs', by rw [hn', ht']; simp⟩
      have hlen := recordsets_length_le_one hsu (normalize_zone z0) "NS"
      rw [hns0] at hlen hmem
      cases nsrest with
      | cons _ _ => simp at hlen
      | nil =>
        simp only [List.mem_singleton] at hmem
        subst hmem
        have hnsmem : s' ∈ recordsets sz.sets (normalize_zone z0) "NS" := by
          rw [hns0]
          exact List.mem_singleton.mpr rfl
        have hprops := mem_recordsets hnsmem
        unfold reaches_generic at hg'
        rw [hprops.2.2] at hg'
        simp [set_equal_refl] at hg'
  have hEst2 : ∀ s ∈ sz.sets, reaches_generic nsrec.records tns.records s = true →
      recordsets st2.target s.name s.type = [s] := by
    intro s hs hg
    by_cases hrem : remove = true
    · rw [if_pos hrem] at hbwd
      have hmne : recordsets sz.sets s.name s.type ≠ [] := by
        intro habs
        have := self_mem_recordsets hs
        rw [habs] at this
        exact absurd this (List.not_mem_nil s)
      rw [backward_pass_preserve hmne tz.sets st1 st2 hbwd]
      exact hEst1 s hs hg
    · rw [if_neg hrem] at hbwd
      simp only [Option.some.injEq] at hbwd
      rw [← hbwd]
      exact hEst1 s hs hg
  have hNS2 : recordsets st2.target (normalize_zone z0) "NS" = tns :: trest := by
    by_cases hrem : remove = true
    · rw [if_pos hrem] at hbwd
      rw [backward_pass_preserve hns tz.sets st1 st2 hbwd]
      exact hNS1
    · rw [if_neg hrem] at hbwd
      simp only [Option.some.injEq] at hbwd
      rw [← hbwd]
      exact hNS1
  have htz2 : find_zone r1.cloud2After (normalize_zone z0)
      = some { tz with sets := st2.target } := by
    by_cases hzc : zc = true
    · rw [if_pos hzc] at hd2
      rw [hcloud, if_pos hzc]
      exact find_zone_append hd2.1 hd2.2
    · rw [if_neg hzc] at hd2
      rw [hcloud, if_neg hzc]
      exact find_zone_update _ hd2 rfl
  obtain ⟨st1', hpass', ht', hc', he', hcr', hch', hd'⟩ :=
    run2_forward prov sz.sets
      { target := st2.target, calls := [], errs := 0, skipped := 0,
        created := 0, changed := 0, nochg := 0, deleted := 0 }
      (fun s hs hg => hEst2 s hs hg)
  have hbwd2 : (if remove then backward_pass sz.sets prov st1' st2.target else some st1')
      = some st1' := by
    by_cases hrem : remove = true
    · rw [if_pos hrem]
      have hMatched : ∀ t' ∈ st2.target, recordsets sz.sets t'.name t'.type ≠ [] := by
        intro t' htmem
        rw [if_pos hrem] at hbwd
        have ht1 : t' ∈ st1.target :=
          backward_pass_shrink sz.sets prov tz.sets st1 st2 hbwd t' htmem
        rcases forward_pass_provenance _ _ prov sz.sets _ st1 hfwd t' ht1 with hm | hm
        · intro habs
          have he21 : st2.errs = st1.errs := by rw [hst2e, hst1e]
          exact (backward_pass_gone tz.sets st1 st2 hbwd he21 t' hm habs) htmem
        · intro habs
          have := self_mem_recordsets hm
          rw [habs] at this
          exact absurd this (List.not_mem_nil t')
      exact run2_backward prov hsu st2.target st1' hMatched
    · rw [if_neg hrem]
  have hrun2 := @sync_zone_build d1 r1.cloud2After prov z0 mail remove sz
    { tz with sets := st2.target } nsrec soarec nsrest soarest soa0 soatail
    h0 hsz hns0 hsoa0 hrec0 htz2
  have hrest2 := @sync_zone_rest_build sz.sets nsrec.records prov remove
    { tz with sets := st2.target } false r1.cloud2After (normalize_zone z0)
    tns trest st1' st1'
    (show recordsets ({ tz with sets := st2.target } : Zone).sets (normalize_zone z0) "NS"
        = tns :: trest from hNS2)
    hpass' hbwd2
  refine ⟨_, by rw [hrun2]; exact hrest2, ?_, ?_, ?_, ?_, ?_, ?_⟩
  · show st1'.calls = []
    rw [hc']
  · show st1'.created = 0
    rw [hcr']
  · show st1'.changed = 0
    rw [hch']
  · show st1'.deleted = 0
    rw [hd']
  · show st1'.errs = 0
    rw [he']
  · show (if false then 1 else 0) = 0
    rfl

/-- C8: if a reconciliation run over a zone completes with zero errors
(so the provider accepted every issued mutation, which the model applies
exactly as requested), a second run over the resulting target cloud with
the same flags issues no provider call at all: zero created, changed and
deleted records and zero errors.  This covers both a pre-existing target
zone and one the first run created (assuming only that the provider
creates zones under the requested name, as the data model specifies). -/
theorem c8_idempotent (d1 d2 : Cloud) (prov : Provider) (z0 : String)
    (mail : Option String) (remove : Bool) (sz : Zone) (r1 : SyncResult)
    (hsz : find_zone d1 (normalize_zone z0) = some sz)
    (hsu : pairsNodup sz.sets)
    (hns : recordsets sz.sets (normalize_zone z0) "NS" ≠ [])
    (hsoa : recordsets sz.sets (normalize_zone z0) "SOA" ≠ [])
    (hcz : ∀ ttlstr em de tz, prov.createZone (normalize_zone z0) ttlstr em de = some tz →
        tz.name = normalize_zone z0)
    (h1 : sync_zone d1 d2 prov z0 mail remove = some r1)
    (h1e : r1.errs = 0) :
    ∃ r2, sync_zone d1 r1.cloud2After prov z0 mail remove = some r2
      ∧ r2.calls = [] ∧ r2.created = 0 ∧ r2.changed = 0 ∧ r2.deleted = 0
      ∧ r2.errs = 0 ∧ r2.domcreate = 0 := by
  have h0 : z0.data.isEmpty = false := by
    by_contra habs
    rw [Bool.not_eq_false] at habs
    simp only [sync_zone] at h1
    rw [if_pos habs] at h1
    exact absurd h1 (by simp)
  cases htzc : find_zone d2 (normalize_zone z0) with
  | some tz =>
    obtain ⟨nsrec, nsrest, soarec, soarest, soa0, soatail, hns0, hsoa0, hrec0, hr1⟩ :=
      sync_zone_inv_found hsz htzc hns hsoa h1
    exact @c8_core d1 prov z0 mail remove sz tz false d2 r1
      nsrec soarec nsrest soarest soa0 soatail
      h0 hsz hsu hns0 hsoa0 hrec0 htzc hr1 h1e
  | none =>
    rcases sync_zone_inv_created hsz htzc hns hsoa h1 with herr |
      ⟨nsrec, nsrest, soarec, soarest, soa0, soatail, ttlstr, em, tz,
        hns0, hsoa0, hrec0, hget, hczeq, hr1⟩
    · rw [herr] at h1e
      simp [err_result] at h1e
    · have hname := hcz ttlstr em sz.description tz hczeq
      exact @c8_core d1 prov z0 mail remove sz tz true d2 r1
        nsrec soarec nsrest soarest soa0 soatail
        h0 hsz hsu hns0 hsoa0 hrec0 ⟨htzc, hname⟩ hr1 h1e

/-- Witness for C8 on the zone-creating reference run: the first run
creates the target zone and copies the A record; the second run over the
resulting cloud issues no call. -/
theorem c8_witness :
    refRunCreate.errs = 0
    ∧ sync_zone srcCloud ⟨[]⟩ createProv "z." none true = some refRunCreate
    ∧ ∃ r2, sync_zone srcCloud refRunCreate.cloud2After createProv "z." none true = some r2
        ∧ r2.calls = [] ∧ r2.created = 0 ∧ r2.changed = 0 ∧ r2.deleted = 0
        ∧ r2.errs = 0 ∧ r2.domcreate = 0 :=
  ⟨rfl, by decide,
   c8_idempotent srcCloud ⟨[]⟩ createProv "z." none true
     ⟨"z.", "adm@z", "", [apexNS_src, apexSOA_src, aRec]⟩
     refRunCreate (by decide) (by decide) (by decide) (by decide)
     (fun ttlstr em de tz h => by injection h with h2; rw [← h2])
     (by decide) rfl⟩

end DnsSync
